import Mathlib

/-!
Shallow embedding of the BrowserClaw shell emulator (`src/shell.ts`) together
with its OPFS storage collaborator (`src/storage.ts`), and proofs about the
claims of the specification.

Modelling conventions:
* JS strings are Lean `String`s; the scanners work over `List Char`.
* The mutable `ShellContext` (cwd, env) plus the OPFS file store, the wall
  clock and the host primitives are threaded through a state monad `M`.
* `Date.now()` readings are drawn from an explicit schedule (`clock`); when
  the schedule is exhausted the clock stays at its last value.
* Host primitives that live outside the interpreter (the JS `RegExp` engine
  for non-literal patterns, `Date.prototype.toISOString`, WebCrypto digests,
  `atob`/`btoa`, `JSON`, and the float comparator used by `sort -n`) are
  collaborator functions collected in an `Oracle` record, mirroring how the
  spec treats the filesystem and digest providers as external collaborators.
* JS exceptions are the error component of `M`; as in JS, state mutations
  performed before a throw survive it.
-/

set_option maxHeartbeats 1000000

namespace BrowserClaw

/-- `ShellResult` from `shell.ts`: captured stdout/stderr and the exit code. -/
structure ShellResult where
  stdout : String
  stderr : String
  exitCode : Nat
  deriving Repr, DecidableEq

/-- One `;`/`&&`/`||`-delimited unit of a command line, with the operator
that separated it from the next segment (`""`, `";"`, `"&&"` or `"||"`). -/
structure Segment where
  cmd : String
  op : String
  deriving Repr, DecidableEq

/-- Host (browser/JS-engine) primitives used by some builtins.  These are
external collaborators of the interpreter core: the `RegExp` engine, the
clock formatter, WebCrypto, base64, the `sed`/`awk` expression matchers,
`JSON`, and the numeric sort comparator. -/
structure Oracle where
  /-- `new RegExp(pattern, icase ? 'i' : '').test` — `none` models a pattern
  the engine rejects (the constructor throws). -/
  reCompile : String → Bool → Option (String → Bool)
  /-- `new Date(t).toISOString()`. -/
  toISO : Nat → String
  /-- `crypto.subtle.digest(algo, bytes)` rendered as lowercase hex. -/
  digestHex : String → String → String
  /-- `btoa` — `none` models the InvalidCharacterError throw. -/
  btoaFn : String → Option String
  /-- `atob` — `none` models the InvalidCharacterError throw. -/
  atobFn : String → Option String
  /-- the match `expr.match(/^s(.)(.+?)\1(.*?)\1([gi]*)$/)` of `sed`,
  returning (pattern, replacement, flags). -/
  sedParse : String → Option (String × String × String)
  /-- `text.replace(new RegExp(pattern, reFlags), replacement)`. -/
  reReplace : String → String → String → String → String
  /-- the match `program.match(/\x7b\s*print\s+(.*?)\s*\x7d/)` of `awk`,
  returning the captured field expression. -/
  awkPrint : String → Option String
  /-- the whole `jq` evaluation (`JSON.parse`, path walk, stringify);
  `.error` carries the message used in `jq: ...`. -/
  jqEval : String → String → Except String String
  /-- `lines.sort((a, b) => parseFloat(a) - parseFloat(b))` (floats). -/
  sortNum : List String → List String

/-- The interpreter state: the `ShellContext` of `shell.ts` (groupId, cwd,
env, timeout bookkeeping) plus the group's OPFS store modelled as a flat
path → content map, the `Date.now()` schedule, and the host oracle. -/
structure St where
  groupId : String
  cwd : String
  env : List (String × String)
  timeoutMs : Nat
  startedAt : Nat
  fs : List (String × String)
  clock : List Nat
  curTime : Nat
  oracle : Oracle

/-- The interpreter monad: state plus JS exceptions.  A thrown error keeps
the state reached so far, as in JS. -/
abbrev M (α : Type) : Type := St → Except String α × St

instance : Monad M where
  pure a := fun s => (Except.ok a, s)
  bind m f := fun s =>
    match m s with
    | (Except.ok a, s') => f a s'
    | (Except.error e, s') => (Except.error e, s')

def getSt : M St := fun s => (Except.ok s, s)

def modifySt (f : St → St) : M Unit := fun s => (Except.ok (), f s)

def throwErr {α : Type} (msg : String) : M α := fun s => (Except.error msg, s)

/-- JS `try { m } catch (e) { h e }`. -/
def tryCatchM {α : Type} (m : M α) (h : String → M α) : M α := fun s =>
  match m s with
  | (Except.ok a, s') => (Except.ok a, s')
  | (Except.error e, s') => h e s'

/-- One `Date.now()` reading: consume the next scheduled clock value (the
clock holds its last value once the schedule is exhausted). -/
def jsNow : M Nat := fun s =>
  match s.clock with
  | [] => (Except.ok s.curTime, s)
  | t :: rest => (Except.ok t, { s with clock := rest, curTime := t })

-- ---------------------------------------------------------------------------
-- JS string primitives
-- ---------------------------------------------------------------------------

/-- JS `\s` on the ASCII range. -/
def isWs (c : Char) : Bool := c.isWhitespace

/-- JS `\w` = `[A-Za-z0-9_]`. -/
def isWordChar (c : Char) : Bool := c.isAlphanum || c == '_'

/-- JS `String.prototype.split` with a single-character separator
(keeps empty pieces, `""` splits to `[""]`). -/
def splitChar (sep : Char) : List Char → List (List Char)
  | [] => [[]]
  | c :: cs =>
    let r := splitChar sep cs
    if c == sep then [] :: r
    else
      match r with
      | h :: t => (c :: h) :: t
      | [] => [[c]]

/-- `s.split(sep)` for a one-character separator. -/
def jsSplit (s : String) (sep : Char) : List String :=
  (splitChar sep s.toList).map (fun l => String.mk l)

/-- JS `String.prototype.trim` (on the ASCII range). -/
def jsTrim (s : String) : String :=
  String.mk (((s.toList.dropWhile isWs).reverse.dropWhile isWs).reverse)

/-- `s.startsWith(pre)`. -/
def jsStartsWith (s pre : String) : Bool := pre.toList.isPrefixOf s.toList

/-- `s.endsWith(suf)`. -/
def jsEndsWith (s suf : String) : Bool := suf.toList.reverse.isPrefixOf s.toList.reverse

/-- `s.replace(pat, repl)` with a global flag and a non-empty literal
pattern: non-overlapping left-to-right replacement, replacements not
rescanned.  The fuel (one unit per input position) only makes the scan
structurally total. -/
def replaceAllF (pat repl : List Char) : Nat → List Char → List Char
  | _, [] => []
  | 0, l => l
  | n + 1, c :: cs =>
    if pat.isPrefixOf (c :: cs) && !pat.isEmpty then
      repl ++ replaceAllF pat repl n ((c :: cs).drop pat.length)
    else c :: replaceAllF pat repl n cs

def jsReplaceAll (s pat repl : String) : String :=
  String.mk (replaceAllF pat.toList repl.toList s.toList.length s.toList)

/-- `s.split(delim)` for a non-empty literal delimiter (fuelled scan). -/
def splitOnListF (delim : List Char) : Nat → List Char → List (List Char)
  | _, [] => [[]]
  | 0, l => [l]
  | n + 1, c :: cs =>
    if delim.isPrefixOf (c :: cs) && !delim.isEmpty then
      [] :: splitOnListF delim n ((c :: cs).drop delim.length)
    else
      match splitOnListF delim n cs with
      | h :: t => (c :: h) :: t
      | [] => [[c]]

/-- `parseInt(s, 10)`: optional whitespace and sign, then a digit run;
`none` is `NaN`. -/
def jsParseInt (s : String) : Option Int :=
  let cs := s.toList.dropWhile isWs
  let (sign, cs') : Int × List Char :=
    match cs with
    | '-' :: t => (-1, t)
    | '+' :: t => (1, t)
    | _ => (1, cs)
  let digits := cs'.takeWhile (fun c => c.isDigit)
  if digits.isEmpty then none
  else some (sign * (digits.foldl (fun n c => n * 10 + (c.toNat - 48)) 0 : Nat))

/-- JS `Number(s)` restricted to integer literals: an empty or
whitespace-only string is `0`, an optionally signed digit run is its value,
and everything else is `none` (`NaN`).  Non-integer numeric literals
(decimals, exponents, hex, `Infinity`) are outside this model. -/
def jsNumber (s : String) : Option Int :=
  let t := jsTrim s
  if t == "" then some 0
  else
    let (sign, cs) : Int × List Char :=
      match t.toList with
      | '-' :: r => (-1, r)
      | '+' :: r => (1, r)
      | l => (1, l)
    if cs ≠ [] && cs.all (fun c => c.isDigit) then
      some (sign * (cs.foldl (fun n c => n * 10 + (c.toNat - 48)) 0 : Nat))
    else none

/-- `arr.slice(0, n)` where `n` came from `parseInt` (`none` = `NaN`,
which `ToInteger` turns into `0`). -/
def jsSliceZero {α : Type} (l : List α) (n : Option Int) : List α :=
  match n with
  | none => []
  | some k => if 0 ≤ k then l.take k.toNat else l.take (l.length - k.natAbs)

/-- `arr.indexOf(x)`: first index or `-1`. -/
def jsIndexOf (l : List String) (x : String) : Int :=
  match l.findIdx? (fun y => y == x) with
  | some i => (i : Int)
  | none => -1

/-- `s.indexOf(c)` for a character: first index or `-1`. -/
def jsIndexOfChar (s : String) (c : Char) : Int :=
  match s.toList.findIdx? (fun y => y == c) with
  | some i => (i : Int)
  | none => -1

/-- `s.slice(a, b)` for `0 ≤ a ≤ b` taken as naturals. -/
def jsSlice (s : String) (a b : Nat) : String :=
  String.mk ((s.toList.drop a).take (b - a))

/-- `s.slice(a)` to the end. -/
def jsSliceFrom (s : String) (a : Nat) : String :=
  String.mk (s.toList.drop a)

/-- Is `pat` a contiguous run of `s`?  (Used by the literal-pattern demo
oracle for witnesses.) -/
def listHasRun (pat : List Char) : List Char → Bool
  | [] => pat.isEmpty
  | c :: cs => (pat.isPrefixOf (c :: cs)) || listHasRun pat cs


-- ---------------------------------------------------------------------------
-- Storage collaborator (`storage.ts`) on a flat path → content map
-- ---------------------------------------------------------------------------

/-- `parsePath` of `storage.ts`: backslashes become slashes, empty segments
drop out; an empty path throws.  The flat store is keyed by the rejoined
segments. -/
def parsePathKey (p : String) : Except String String :=
  let norm := p.toList.map (fun c => if c == '\\' then '/' else c)
  let parts := (splitChar '/' norm).map (fun l => String.mk l) |>.filter (fun x => x ≠ "")
  if parts.isEmpty then Except.error "Empty file path"
  else Except.ok (String.intercalate "/" parts)

def fsGet (fs : List (String × String)) (k : String) : Option String :=
  (fs.find? (fun kv => kv.1 == k)).map (fun kv => kv.2)

def fsSet (fs : List (String × String)) (k v : String) : List (String × String) :=
  if fs.any (fun kv => kv.1 == k) then
    fs.map (fun kv => if kv.1 == k then (k, v) else kv)
  else fs ++ [(k, v)]

def fsDel (fs : List (String × String)) (k : String) : List (String × String) :=
  fs.filter (fun kv => kv.1 ≠ k)

/-- `readGroupFile`: missing files reject (OPFS NotFoundError). -/
def readGroupFile (path : String) : M String := fun s =>
  match parsePathKey path with
  | Except.error e => (Except.error e, s)
  | Except.ok k =>
    match fsGet s.fs k with
    | some v => (Except.ok v, s)
    | none => (Except.error "NotFoundError", s)

/-- `writeGroupFile`: creates or overwrites (directories are implicit in the
flat map, as OPFS creates them on demand). -/
def writeGroupFile (path content : String) : M Unit := fun s =>
  match parsePathKey path with
  | Except.error e => (Except.error e, s)
  | Except.ok k => (Except.ok (), { s with fs := fsSet s.fs k content })

/-- `deleteGroupFile`: removing a missing entry rejects. -/
def deleteGroupFile (path : String) : M Unit := fun s =>
  match parsePathKey path with
  | Except.error e => (Except.error e, s)
  | Except.ok k =>
    match fsGet s.fs k with
    | some _ => (Except.ok (), { s with fs := fsDel s.fs k })
    | none => (Except.error "NotFoundError", s)

/-- path → segments, for the directory model of the flat store. -/
def pathSegs (p : String) : List String :=
  ((splitChar '/' p.toList).map (fun l => String.mk l)).filter (fun x => x ≠ "")

/-- The immediate children of `dir` in the flat store: the next segment of
every key below `dir`, directories suffixed `/`, deduplicated and sorted
(OPFS entries are unique; `.sort()` is the JS string sort). -/
def childEntries (fs : List (String × String)) (dir : List String) : List String :=
  let names := fs.filterMap (fun kv =>
    let segs := pathSegs kv.1
    if segs.take dir.length == dir && dir.length < segs.length then
      match segs.drop dir.length with
      | n :: more => some (if more.isEmpty then n else n ++ "/")
      | [] => none
    else none)
  (names.eraseDups).mergeSort (fun a b => a ≤ b)

/-- `listGroupFiles`: the root (`''`/`'.'`) always lists; any other
directory must have something below it, otherwise OPFS rejects. -/
def listGroupFiles (dirPath : String) : M (List String) := fun s =>
  if dirPath == "" || dirPath == "." then
    (Except.ok (childEntries s.fs []), s)
  else
    let parts := pathSegs dirPath
    if s.fs.any (fun kv => (pathSegs kv.1).take parts.length == parts
        && parts.length < (pathSegs kv.1).length) then
      (Except.ok (childEntries s.fs parts), s)
    else (Except.error "NotFoundError", s)

/-- `groupFileExists`: a read wrapped in try/catch. -/
def groupFileExists (path : String) : M Bool := fun s =>
  match readGroupFile path s with
  | (Except.ok _, s') => (Except.ok true, s')
  | (Except.error _, _) => (Except.ok false, s)

/-- `safeRead` of `shell.ts`: a read with failures turned into `null`. -/
def safeRead (path : String) : M (Option String) := fun s =>
  match readGroupFile path s with
  | (Except.ok v, s') => (Except.ok (some v), s')
  | (Except.error _, _) => (Except.ok none, s)

-- ---------------------------------------------------------------------------
-- Helpers of `shell.ts`
-- ---------------------------------------------------------------------------

/-- `checkTimeout`: one `Date.now()` poll; past the deadline the whole
pipeline is aborted by a throw. -/
def checkTimeout : M Unit := do
  let t ← jsNow
  let s ← getSt
  if t - s.startedAt > s.timeoutMs then throwErr "[command timed out]" else pure ()

/-- `p.replace(/^\/workspace\/?/, '')`. -/
def stripWorkspace (p : String) : String :=
  if jsStartsWith p "/workspace/" then jsSliceFrom p 11
  else if jsStartsWith p "/workspace" then jsSliceFrom p 10
  else p

/-- The `.`/`..` normalisation loop of `resolvePath`: `.` and empty
segments are skipped, `..` pops (silently a no-op at the root), everything
else is pushed. -/
def resolveSegs (segs : List String) : List String :=
  segs.foldl
    (fun acc seg =>
      if seg == "." || seg == "" then acc
      else if seg == ".." then acc.dropLast
      else acc ++ [seg]) []

/-- `parts.join('/')`. -/
def joinSlash : List String → String
  | [] => ""
  | [x] => x
  | x :: xs => x ++ "/" ++ joinSlash xs

/-- The segment list `resolvePath` joins: strip the `/workspace` prefix,
resolve relative to the cwd, strip leading slashes, then normalise. -/
def resolvePathParts (p : String) (cwd : String) : List String :=
  let cleaned := stripWorkspace p
  if cleaned == "" || cleaned == "/" then []
  else
    let cleaned1 := if !(jsStartsWith cleaned "/") && cwd ≠ "." then cwd ++ "/" ++ cleaned else cleaned
    let cleaned2 := (cleaned1.toList.dropWhile (fun c => c == '/'))
    resolveSegs ((splitChar '/' cleaned2).map (fun l => String.mk l))

/-- `resolvePath` of `shell.ts` (it only reads `ctx.cwd` from the context):
`parts.join('/') || '.'`, with the early `'.'` returns for an empty or
root path folded into the empty-parts case. -/
def resolvePath (p : String) (cwd : String) : String :=
  let parts := resolvePathParts p cwd
  if parts.isEmpty then "." else joinSlash parts

def envGet (env : List (String × String)) (k : String) : String :=
  match (env.find? (fun kv => kv.1 == k)).map (fun kv => kv.2) with
  | some v => v
  | none => ""

/-- JS object key assignment: overwrite in place or append. -/
def recordSet (r : List (String × String)) (k v : String) : List (String × String) :=
  if r.any (fun kv => kv.1 == k) then
    r.map (fun kv => if kv.1 == k then (k, v) else kv)
  else r ++ [(k, v)]

def recordGet (r : List (String × String)) (k : String) : Option String :=
  (r.find? (fun kv => kv.1 == k)).map (fun kv => kv.2)

theorem length_dropWhile_le {α : Type} (p : α → Bool) (l : List α) :
    (l.dropWhile p).length ≤ l.length := by
  induction l with
  | nil => simp [List.dropWhile]
  | cons a t ih =>
    by_cases h : p a
    · simp [List.dropWhile, h]; omega
    · simp [List.dropWhile, h]

/-- First pass of `expandVars`: `str.replace(/\$\x7b(\w+)\x7d/g, ...)`.
Replacements are spliced in without being rescanned; a failed match at a
`$` advances one character, as the regex engine does. -/
def expandBracesF (env : List (String × String)) : Nat → List Char → List Char
  | _, [] => []
  | 0, l => l
  | n + 1, c :: rest =>
    if c == '$' && rest.head? == some '{' then
      let name := rest.tail.takeWhile isWordChar
      let rest3 := rest.tail.dropWhile isWordChar
      if !name.isEmpty && rest3.head? == some '}' then
        (envGet env (String.mk name)).toList ++ expandBracesF env n rest3.tail
      else c :: expandBracesF env n rest
    else c :: expandBracesF env n rest

/-- First pass of `expandVars`: `str.replace(/\$\x7b(\w+)\x7d/g, ...)`.
Replacements are spliced in without being rescanned; a failed match at a
`$` advances one character, as the regex engine does.  (The fuel, one unit
per consumed position, only makes the scan structurally total.) -/
def expandBraces (env : List (String × String)) (l : List Char) : List Char :=
  expandBracesF env l.length l

/-- Second pass of `expandVars`: `result.replace(/\$(\w+)/g, ...)`. -/
def expandWordsF (env : List (String × String)) : Nat → List Char → List Char
  | _, [] => []
  | 0, l => l
  | n + 1, c :: rest =>
    if c == '$' && !(rest.takeWhile isWordChar).isEmpty then
      (envGet env (String.mk (rest.takeWhile isWordChar))).toList ++
        expandWordsF env n (rest.dropWhile isWordChar)
    else c :: expandWordsF env n rest

def expandWords (env : List (String × String)) (l : List Char) : List Char :=
  expandWordsF env l.length l

/-- `expandVars`: `${VAR}` first, then `$VAR`, on the whole raw command
string (so also inside quotes). -/
def expandVars (str : String) (env : List (String × String)) : String :=
  String.mk (expandWords env (expandBraces env str.toList))

/-- The loop state of `tokenize`: remaining input, `inSingle`,
`inDouble`, `escape`, and the current buffer.  Only a non-empty buffer is
pushed (so empty quoted strings vanish). -/
def tokenizeAux : List Char → Bool → Bool → Bool → List Char → List String
  | [], _, _, _, cur => if cur.isEmpty then [] else [String.mk cur]
  | c :: cs, inS, inD, esc, cur =>
    if esc then tokenizeAux cs inS inD false (cur ++ [c])
    else if c == '\\' && !inS then tokenizeAux cs inS inD true cur
    else if c == '\'' && !inD then tokenizeAux cs (!inS) inD false cur
    else if c == '"' && !inS then tokenizeAux cs inS (!inD) false cur
    else if c == ' ' && !inS && !inD then
      (if cur.isEmpty then [] else [String.mk cur]) ++ tokenizeAux cs inS inD false []
    else tokenizeAux cs inS inD false (cur ++ [c])

/-- `tokenize` of `shell.ts`. -/
def tokenize (cmd : String) : List String :=
  tokenizeAux cmd.toList false false false []

/-- The scanning loop of `splitOnOperators`: quote-aware splitting on
`&&`, `||` and `;`, recording each segment's trailing operator; a final
whitespace-only buffer is dropped.  (The fuel, one unit per consumed
position, only makes the scan structurally total.) -/
def splitAuxF : Nat → List Char → Bool → Bool → List Char → List Segment
  | _, [], _, _, cur =>
    if jsTrim (String.mk cur) == "" then [] else [⟨String.mk cur, ""⟩]
  | 0, l, _, _, cur => [⟨String.mk (cur ++ l), ""⟩]
  | n + 1, c :: cs, inS, inD, cur =>
    if c == '\'' && !inD then splitAuxF n cs (!inS) inD (cur ++ [c])
    else if c == '"' && !inS then splitAuxF n cs inS (!inD) (cur ++ [c])
    else if inS || inD then splitAuxF n cs inS inD (cur ++ [c])
    else if c == '&' && cs.head? == some '&' then
      ⟨String.mk cur, "&&"⟩ :: splitAuxF n cs.tail inS inD []
    else if c == '|' && cs.head? == some '|' then
      ⟨String.mk cur, "||"⟩ :: splitAuxF n cs.tail inS inD []
    else if c == ';' then ⟨String.mk cur, ";"⟩ :: splitAuxF n cs inS inD []
    else splitAuxF n cs inS inD (cur ++ [c])

/-- `splitOnOperators` of `shell.ts`. -/
def splitOnOperators (line : String) : List Segment :=
  splitAuxF line.toList.length line.toList false false []

/-- The split points of `line.split(/(?<!\|)\|(?!\|)/)`: a `|` whose
neighbours are not `|`.  `prev` is the character before the cursor. -/
def pipeSplitAux : List Char → Option Char → List Char → List (List Char)
  | [], _, cur => [cur]
  | c :: cs, prev, cur =>
    if c == '|' && prev ≠ some '|' && cs.head? ≠ some '|' then
      cur :: pipeSplitAux cs (some c) []
    else pipeSplitAux cs (some c) (cur ++ [c])

/-- The pipe-stage strings of `runPipe`: split on single `|`, trim,
drop empties. -/
def pipeParts (line : String) : List String :=
  ((pipeSplitAux line.toList none []).map (fun l => jsTrim (String.mk l))).filter
    (fun x => x ≠ "")

/-- `cmd.includes('|')`. -/
def hasPipeChar (s : String) : Bool := s.toList.contains '|'

/-- `cmd.includes('||')`. -/
def hasPipePipe : List Char → Bool
  | '|' :: '|' :: _ => true
  | _ :: cs => hasPipePipe cs
  | [] => false

/-- A match of `/\s*>\s*(\S+)\s*$/` (or with `>>`) starting exactly here:
greedy whitespace, the arrow(s), greedy whitespace, a non-empty
non-whitespace run, then only whitespace to the end.  Backtracking cannot
produce any other shape for this pattern. -/
def matchRedirAt (two : Bool) (cs : List Char) : Option String :=
  let cs1 := cs.dropWhile isWs
  let afterArrow : Option (List Char) :=
    if two then
      match cs1 with
      | '>' :: '>' :: r => some r
      | _ => none
    else
      match cs1 with
      | '>' :: r => some r
      | _ => none
  match afterArrow with
  | none => none
  | some r =>
    let r1 := r.dropWhile isWs
    let word := r1.takeWhile (fun c => !(isWs c))
    let r2 := r1.dropWhile (fun c => !(isWs c))
    if word.isEmpty then none
    else if r2.all isWs then some (String.mk word) else none

/-- `cmdStr.match(/\s*>>\s*(\S+)\s*$/)` (append) or the single-`>` variant:
the leftmost start position that matches, returning the prefix before the
match (`cmdStr.slice(0, match.index)`) and the captured target. -/
def findRedir (two : Bool) : List Char → Option (String × String)
  | [] => none
  | c :: cs =>
    match matchRedirAt two (c :: cs) with
    | some w => some ("", w)
    | none =>
      match findRedir two cs with
      | some (pre, w) => some (String.mk (c :: pre.toList), w)
      | none => none

/-- The combined-short-flag loop of `parseFlags` (`-rn`): every character
becomes a flag; a value-taking character consumes the next pending
argument. -/
def combineShort : List Char → List String → List (String × String) → List String →
    List (String × String) × List String
  | [], _, flags, rest => (flags, rest)
  | ch :: t, wv, flags, rest =>
    if wv.contains (String.mk [ch]) && !rest.isEmpty then
      combineShort t wv (recordSet flags (String.mk [ch]) (rest.headD "")) rest.tail
    else combineShort t wv (recordSet flags (String.mk [ch]) "") rest

theorem combineShort_rest_le (cs : List Char) (wv : List String)
    (flags : List (String × String)) (rest : List String) :
    (combineShort cs wv flags rest).2.length ≤ rest.length := by
  induction cs generalizing flags rest with
  | nil => simp [combineShort]
  | cons ch t ih =>
    by_cases h : wv.contains (String.mk [ch]) && !rest.isEmpty
    · simp only [combineShort, h, if_pos]
      have h1 := ih (recordSet flags (String.mk [ch]) (rest.headD "")) rest.tail
      have h2 : rest.tail.length ≤ rest.length := by
        cases rest <;> simp
      omega
    · simp only [combineShort, h, if_neg, Bool.false_eq_true, not_false_iff]
      exact ih _ rest

/-- The argument loop of `parseFlags`: `--` ends flag parsing, `--x`/`--x=y`
are long flags, `-xyz` is combined shorts, `-x v` consumes a value when `x`
is declared value-taking, everything else is an operand.  (The fuel, one
unit per consumed argument, only makes the loop structurally total.) -/
def parseFlagsAuxF (wv : List String) : Nat → List String → List (String × String) →
    List String → List (String × String) × List String
  | _, [], flags, ops => (flags, ops)
  | 0, _, flags, ops => (flags, ops)
  | n + 1, a :: rest, flags, ops =>
    if a == "--" then (flags, ops ++ rest)
    else if jsStartsWith a "-" && a.length > 1 && !(jsStartsWith a "--") then
      let flag := a.drop 1
      if flag.length > 1 && !(wv.contains flag) then
        let pr := combineShort flag.toList wv flags rest
        parseFlagsAuxF wv n pr.2 pr.1 ops
      else if wv.contains flag && !rest.isEmpty then
        parseFlagsAuxF wv n rest.tail (recordSet flags flag (rest.headD "")) ops
      else parseFlagsAuxF wv n rest (recordSet flags flag "") ops
    else if jsStartsWith a "--" then
      let eqPos := jsIndexOfChar a '='
      if eqPos > 0 then
        parseFlagsAuxF wv n rest
          (recordSet flags (jsSlice a 2 eqPos.toNat) (jsSliceFrom a (eqPos.toNat + 1))) ops
      else parseFlagsAuxF wv n rest (recordSet flags (a.drop 2) "") ops
    else parseFlagsAuxF wv n rest flags (ops ++ [a])

/-- `parseFlags` of `shell.ts`.  The `booleans` parameter is accepted but
never read, exactly as in the source. -/
def parseFlags (args : List String) (withValue : List String) (booleans : List String) :
    List (String × String) × List String :=
  let _ := booleans
  parseFlagsAuxF withValue args.length args [] []

-- ---------------------------------------------------------------------------
-- Builtins (the arms of the `dispatch` switch, one definition each)
-- ---------------------------------------------------------------------------

def ok (out : String) : ShellResult := ⟨out, "", 0⟩

def fail (err : String) (code : Nat) : ShellResult := ⟨"", err, code⟩

def fail1 (err : String) : ShellResult := fail err 1

/-- `operands.length > 0 ? (await safeRead(..., resolvePath(operands[0], ctx))) ?? '' : stdin`,
the file-or-stdin pattern shared by many builtins. -/
def textFromOr (operands : List String) (stdin : String) : M String :=
  match operands with
  | f :: _ => do
    let s ← getSt
    let c ← safeRead (resolvePath f s.cwd)
    pure (match c with | some t => t | none => "")
  | [] => pure stdin

/-- `text.split(/\s+/)`: whitespace runs separate pieces; a leading or
trailing run contributes an empty piece, as in JS.  (Fuelled scan.) -/
def splitWsAuxF : Nat → List Char → List Char → List (List Char)
  | _, [], cur => [cur]
  | 0, l, cur => [cur ++ l]
  | n + 1, c :: cs, cur =>
    if isWs c then cur :: splitWsAuxF n (cs.dropWhile isWs) []
    else splitWsAuxF n cs (cur ++ [c])

def splitWs (l : List Char) : List (List Char) := splitWsAuxF l.length l []

/-- The `%s`/`%d` scan of `printf` (`/%[sd]/g` with sequential operands;
replacements are not rescanned; a missing operand is the empty string).
(Fuelled scan.) -/
def printfSubstF (rest : List String) : Nat → List Char → Nat → List Char
  | _, [], _ => []
  | 0, l, _ => l
  | n + 1, c :: t, idx =>
    if c == '%' && (t.headD ' ' == 's' || t.headD ' ' == 'd') then
      (rest.getD idx "").toList ++ printfSubstF rest n t.tail (idx + 1)
    else c :: printfSubstF rest n t idx

def printfSubst (rest : List String) (l : List Char) (idx : Nat) : List Char :=
  printfSubstF rest l.length l idx

/-- `printf`: `%s`/`%d` substitution, then the `\n` and `\t` escapes. -/
def cmdPrintf (args : List String) : ShellResult :=
  match args with
  | [] => ok ""
  | fmt :: rest =>
    let out1 := String.mk (printfSubst rest fmt.toList 0)
    ok (jsReplaceAll (jsReplaceAll out1 "\\n" "\n") "\\t" "\t")

/-- The file loop of `cat`: `-` is stdin, a missing file aborts with
`cat: f: No such file`, otherwise contents are concatenated. -/
def catLoop (stdin : String) : List String → List String → M ShellResult
  | [], acc => pure (ok (String.join acc.reverse))
  | f :: rest, acc =>
    if f == "-" then catLoop stdin rest (stdin :: acc)
    else do
      let s ← getSt
      let c ← safeRead (resolvePath f s.cwd)
      match c with
      | none => pure (fail1 s!"cat: {f}: No such file")
      | some content => catLoop stdin rest (content :: acc)

def cmdCat (args : List String) (stdin : String) : M ShellResult :=
  if args.isEmpty && stdin ≠ "" then pure (ok stdin)
  else catLoop stdin args []

def cmdHead (args : List String) (stdin : String) : M ShellResult := do
  let fp := parseFlags args ["n"] []
  let n := jsParseInt (match recordGet fp.1 "n" with | some v => v | none => "10")
  let text ← textFromOr fp.2 stdin
  pure (ok (String.intercalate "\n" (jsSliceZero (jsSplit text '\n') n) ++ "\n"))

/-- `lines.slice(Math.max(0, lines.length - n))`; a `NaN` count coerces to
a start of `0`, i.e. the whole array. -/
def jsTailSlice {α : Type} (l : List α) (n : Option Int) : List α :=
  match n with
  | none => l
  | some k => l.drop (max 0 ((l.length : Int) - k)).toNat

def cmdTail (args : List String) (stdin : String) : M ShellResult := do
  let fp := parseFlags args ["n"] []
  let n := jsParseInt (match recordGet fp.1 "n" with | some v => v | none => "10")
  let text ← textFromOr fp.2 stdin
  pure (ok (String.intercalate "\n" (jsTailSlice (jsSplit text '\n') n)))

def cmdWc (args : List String) (stdin : String) : M ShellResult := do
  let text ← textFromOr args stdin
  let lines := (jsSplit text '\n').length - (if jsEndsWith text "\n" then 1 else 0)
  let words := (((splitWs text.toList).map (fun l => String.mk l)).filter
    (fun x => x ≠ "")).length
  let chars := text.length
  pure (ok (s!"{lines} {words} {chars}" ++ "\n"))

/-- The line selection of `grep`: filter by the compiled pattern (inverted
under `-v`), then cap at `-m COUNT`. -/
def grepSelect (flags : List (String × String)) (re : String → Bool) (text : String) :
    List String :=
  let invert := (recordGet flags "v").isSome
  let lines1 := (jsSplit text '\n').filter (fun l => let m := re l; if invert then !m else m)
  match recordGet flags "m" with
  | some mv => jsSliceZero lines1 (jsParseInt mv)
  | none => lines1

/-- The pure tail of `grep` once the text is fetched and the pattern
compiled: `-c` prints the count (exit 0 even for zero), `-n` prefixes
`indexOf+1:`, and an empty selection exits 1 with empty output. -/
def grepCore (flags : List (String × String)) (re : String → Bool) (text : String) :
    ShellResult :=
  let lines := grepSelect flags re text
  if (recordGet flags "c").isSome then ok (toString lines.length ++ "\n")
  else
    let lines2 :=
      if (recordGet flags "n").isSome then
        let all := jsSplit text '\n'
        lines.map (fun l => toString (jsIndexOf all l + 1) ++ ":" ++ l)
      else lines
    if lines2.length > 0 then ok (String.intercalate "\n" lines2 ++ "\n") else fail1 ""

def cmdGrep (args : List String) (stdin : String) : M ShellResult := do
  let fp := parseFlags args ["e", "m"] ["i", "v", "c", "n", "l"]
  let flags := fp.1
  let pattern := match recordGet flags "e" with | some v => v | none => fp.2.headD ""
  let operands := if (recordGet flags "e").isSome then fp.2 else fp.2.tail
  let text ← textFromOr operands stdin
  let s ← getSt
  match s.oracle.reCompile pattern ((recordGet flags "i").isSome) with
  | none => throwErr "SyntaxError: Invalid regular expression"
  | some re => pure (grepCore flags re text)

def cmdSort (args : List String) (stdin : String) : M ShellResult := do
  let fp := parseFlags args [] ["r", "n", "u"]
  let flags := fp.1
  let text ← textFromOr fp.2 stdin
  let lines0 := (jsSplit text '\n').filter (fun x => x ≠ "")
  let s ← getSt
  let lines1 :=
    if (recordGet flags "n").isSome then s.oracle.sortNum lines0
    else lines0.mergeSort (fun a b => a ≤ b)
  let lines2 := if (recordGet flags "r").isSome then lines1.reverse else lines1
  let lines3 := if (recordGet flags "u").isSome then lines2.eraseDups else lines2
  pure (ok (String.intercalate "\n" lines3 ++ "\n"))

/-- `lines.filter((l, i) => i === 0 || l !== lines[i - 1])`. -/
def uniqAux : String → List String → List String
  | _, [] => []
  | prev, x :: t => if x == prev then uniqAux x t else x :: uniqAux x t

def uniqLines : List String → List String
  | [] => []
  | x :: t => x :: uniqAux x t

def cmdUniq (args : List String) (stdin : String) : M ShellResult := do
  let text ← textFromOr args stdin
  pure (ok (String.intercalate "\n" (uniqLines (jsSplit text '\n'))))

/-- Membership in the character class `[...]` that `tr -d` builds from the
escaped set: every character is literal, except that an interior `-`
between two characters forms a code-point range.  (A decreasing range,
which would make `RegExp` throw, simply matches nothing here.) -/
def trClassMember : List Char → Char → Bool
  | a :: '-' :: b :: rest, c => (a ≤ c && c ≤ b) || trClassMember rest c
  | a :: rest, c => c == a || trClassMember rest c
  | [], _ => false

/-- The transliteration loop of `tr`: one global single-character replace
per source character, sequentially (so later replacements see earlier
results); a short `to` set pads with its last character, and an empty `to`
set substitutes the string `undefined` (JS stringifies the undefined
replacement). -/
def trPairs (fromCs toCs : List Char) (text : String) : String :=
  (List.range fromCs.length).foldl
    (fun acc i =>
      let repl :=
        if i < toCs.length then String.mk [toCs.getD i ' ']
        else if toCs.length > 0 then String.mk [toCs.getD (toCs.length - 1) ' ']
        else "undefined"
      jsReplaceAll acc (String.mk [fromCs.getD i ' ']) repl) text

def cmdTr (args : List String) (stdin : String) : ShellResult :=
  if args.headD "" == "-d" && args.getD 1 "" ≠ "" then
    ok (String.mk (stdin.toList.filter (fun c => !(trClassMember (args.getD 1 "").toList c))))
  else if args.length ≥ 2 then
    ok (trPairs (args.getD 0 "").toList (args.getD 1 "").toList stdin)
  else fail1 "tr: missing operands"

/-- `line.split(delim)`: JS splits into single characters when the
delimiter is empty. -/
def jsSplitStr (s delim : String) : List String :=
  if delim == "" then s.toList.map (fun c => String.mk [c])
  else (splitOnListF delim.toList s.toList.length s.toList).map (fun l => String.mk l)

/-- `parts[f] ?? ''` with an `Int` index from `parseInt - 1`. -/
def jsAtInt (l : List String) (i : Option Int) : String :=
  match i with
  | some k => if 0 ≤ k && k < (l.length : Int) then l.getD k.toNat "" else ""
  | none => ""

def cmdCut (args : List String) (stdin : String) : M ShellResult := do
  let fp := parseFlags args ["d", "f"] []
  let delim := match recordGet fp.1 "d" with | some v => v | none => "\t"
  let fields := (jsSplit (match recordGet fp.1 "f" with | some v => v | none => "1") ',').map
    (fun x => (jsParseInt x).map (fun k => k - 1))
  let text ← textFromOr fp.2 stdin
  let result := (jsSplit text '\n').map (fun line =>
    let parts := jsSplitStr line delim
    String.intercalate delim (fields.map (fun f => jsAtInt parts f)))
  pure (ok (String.intercalate "\n" result))

def cmdSed (args : List String) (stdin : String) : M ShellResult := do
  let expr := args.headD ""
  let text ← (if args.length > 1 then textFromOr args.tail stdin else pure stdin)
  let s ← getSt
  match s.oracle.sedParse expr with
  | none => pure (fail1 ("sed: unsupported expression: " ++ expr))
  | some (pat, repl, fl) =>
    let reFlags := if fl.contains 'i' then "gi" else if fl.contains 'g' then "g" else ""
    pure (ok (s.oracle.reReplace pat reFlags repl text))

/-- The `/\$(\d+)/g` substitution of `awk`'s field expression: `$0` is the
whole line, `$N` the 1-based whitespace-split field (or empty). -/
def awkSubstF (line : String) (fields : List String) : Nat → List Char → List Char
  | _, [] => []
  | 0, l => l
  | n + 1, c :: cs =>
    if c == '$' && !(cs.takeWhile Char.isDigit).isEmpty then
      let ds := cs.takeWhile Char.isDigit
      let idx := ds.foldl (fun k d => k * 10 + (d.toNat - 48)) 0
      (if idx == 0 then line.toList else (fields.getD (idx - 1) "").toList) ++
        awkSubstF line fields n (cs.dropWhile Char.isDigit)
    else c :: awkSubstF line fields n cs

def awkSubst (line : String) (fields : List String) (l : List Char) : List Char :=
  awkSubstF line fields l.length l

def cmdAwk (args : List String) (stdin : String) : M ShellResult := do
  let text ← (if args.length > 1 then textFromOr args.tail stdin else pure stdin)
  let program := args.headD ""
  let s ← getSt
  match s.oracle.awkPrint program with
  | some fieldExpr =>
    let lines := (jsSplit text '\n').filter (fun x => x ≠ "")
    let result := lines.map (fun line =>
      let fields := (splitWs line.toList).map (fun l => String.mk l)
      String.mk (awkSubst line fields fieldExpr.toList))
    pure (ok (String.intercalate "\n" result ++ "\n"))
  | none => pure (fail1 "awk: only basic \x7bprint $N\x7d patterns supported")

def cmdLs (args : List String) : M ShellResult := do
  let fp := parseFlags args [] ["l", "a", "1"]
  let flags := fp.1
  let dir := if fp.2.headD "" ≠ "" then fp.2.headD "" else "."
  let s ← getSt
  tryCatchM
    (do
      let entries ← listGroupFiles (resolvePath dir s.cwd)
      let filtered :=
        if (recordGet flags "a").isSome then entries
        else entries.filter (fun e => !(jsStartsWith e "."))
      if (recordGet flags "1").isSome || (recordGet flags "l").isSome then
        pure (ok (String.intercalate "\n" filtered ++ "\n"))
      else pure (ok (String.intercalate "  " filtered ++ "\n")))
    (fun _ => pure (fail1 s!"ls: cannot access '{dir}': No such directory"))

def mkdirLoop : List String → M Unit
  | [] => pure ()
  | d :: rest => do
    let s ← getSt
    writeGroupFile (resolvePath (d ++ "/.keep") s.cwd) ""
    mkdirLoop rest

/-- `mkdir`: OPFS has no empty directories, so a `.keep` sentinel is
written into each requested directory. -/
def cmdMkdir (args : List String) : M ShellResult := do
  let fp := parseFlags args [] ["p"]
  mkdirLoop fp.2
  pure (ok "")

def touchLoop : List String → M Unit
  | [] => pure ()
  | f :: rest => do
    let s ← getSt
    let path := resolvePath f s.cwd
    let existing ← safeRead path
    (match existing with
     | none => writeGroupFile path ""
     | some _ => pure ())
    touchLoop rest

def cmdTouch (args : List String) : M ShellResult := do
  touchLoop args
  pure (ok "")

def cmdCp (args : List String) : M ShellResult := do
  if args.length < 2 then pure (fail1 "cp: missing operands")
  else do
    let s ← getSt
    let a0 := args.headD ""
    let src := resolvePath a0 s.cwd
    let dst := resolvePath (args.getD 1 "") s.cwd
    let content ← safeRead src
    match content with
    | none => pure (fail1 s!"cp: {a0}: No such file")
    | some c => do
      writeGroupFile dst c
      pure (ok "")

/-- `mv`: read the source, write the destination, then delete the source —
in that order, non-atomically. -/
def cmdMv (args : List String) : M ShellResult := do
  if args.length < 2 then pure (fail1 "mv: missing operands")
  else do
    let s ← getSt
    let a0 := args.headD ""
    let src := resolvePath a0 s.cwd
    let dst := resolvePath (args.getD 1 "") s.cwd
    let content ← safeRead src
    match content with
    | none => pure (fail1 s!"mv: {a0}: No such file")
    | some c => do
      writeGroupFile dst c
      deleteGroupFile src
      pure (ok "")

def rmLoop (force : Bool) : List String → M ShellResult
  | [] => pure (ok "")
  | f :: rest => do
    let s ← getSt
    let deleted ← tryCatchM (do deleteGroupFile (resolvePath f s.cwd); pure true)
      (fun _ => pure false)
    if deleted then rmLoop force rest
    else if force then rmLoop force rest
    else pure (fail1 s!"rm: {f}: No such file")

def cmdRm (args : List String) : M ShellResult := do
  let fp := parseFlags args [] ["r", "f"]
  rmLoop ((recordGet fp.1 "f").isSome) fp.2

def cmdPwd : M ShellResult := do
  let s ← getSt
  pure (ok ((if s.cwd == "." then "/workspace" else "/workspace/" ++ s.cwd) ++ "\n"))

def cmdCd (args : List String) : M ShellResult := do
  let target := args.headD "."
  modifySt (fun s =>
    let ncwd := resolvePath target s.cwd
    { s with cwd := ncwd, env := recordSet s.env "PWD" ("/workspace/" ++ ncwd) })
  pure (ok "")

def cmdDate : M ShellResult := do
  let t ← jsNow
  let s ← getSt
  pure (ok (s.oracle.toISO t ++ "\n"))

def cmdEnv : M ShellResult := do
  let s ← getSt
  pure (ok (String.intercalate "\n" (s.env.map (fun kv => kv.1 ++ "=" ++ kv.2)) ++ "\n"))

def exportLoop : List String → M Unit
  | [] => pure ()
  | a :: rest => do
    let eqPos := jsIndexOfChar a '='
    (if eqPos > 0 then
      modifySt (fun s =>
        { s with env := recordSet s.env (jsSlice a 0 eqPos.toNat) (jsSliceFrom a (eqPos.toNat + 1)) })
    else pure ())
    exportLoop rest

def cmdExport (args : List String) : M ShellResult := do
  exportLoop args
  pure (ok "")

/-- `seq` over the integer-literal fragment of JS `Number` (`jsNumber`).
A `NaN` start or end empties the loop; a `NaN` step emits at most the
start; a zero step with `start ≥ end` loops forever in the source, which
this model marks with a distinguished error. -/
def cmdSeq (args : List String) : M ShellResult := do
  let nums := args.map jsNumber
  let triple : Option Int × Option Int × Option Int :=
    match nums with
    | [] => (some 1, some 1, some 1)
    | [e] => (some 1, some 1, e)
    | [a, e] => (a, some 1, e)
    | a :: st :: e :: _ => (a, st, e)
  match triple with
  | (none, _, _) => pure (ok "\n")
  | (_, _, none) => pure (ok "\n")
  | (some a, none, some e) =>
    pure (ok (if a ≥ e then toString a ++ "\n" else "\n"))
  | (some a, some st, some e) =>
    if st > 0 then
      let cnt : Int := if e < a then 0 else (e - a) / st + 1
      pure (ok (String.intercalate "\n"
        ((List.range cnt.toNat).map (fun k => toString (a + (k : Int) * st))) ++ "\n"))
    else if st < 0 then
      let cnt : Int := if e > a then 0 else (a - e) / (-st) + 1
      pure (ok (String.intercalate "\n"
        ((List.range cnt.toNat).map (fun k => toString (a + (k : Int) * st))) ++ "\n"))
    else if a ≥ e then throwErr "[seq diverges]"
    else pure (ok "\n")

def resOk : ShellResult := ⟨"", "", 0⟩

def resNo : ShellResult := ⟨"", "", 1⟩

/-- The two-argument unary predicates of `testExpr` (`-f`/`-e`/`-d`/`-z`/`-n`);
`none` means fall through to the remaining cases. -/
def testUnary (op arg : String) : M (Option ShellResult) :=
  match op with
  | "-f" | "-e" => do
    let s ← getSt
    let ex ← groupFileExists (resolvePath arg s.cwd)
    pure (some (if ex then resOk else resNo))
  | "-d" => do
    let s ← getSt
    tryCatchM (do let _ ← listGroupFiles (resolvePath arg s.cwd); pure (some resOk))
      (fun _ => pure (some resNo))
  | "-z" => pure (some (if arg.length == 0 then resOk else resNo))
  | "-n" => pure (some (if arg.length > 0 then resOk else resNo))
  | _ => pure none

/-- The three-argument binary predicates of `testExpr`.  Numeric operands
go through JS `Number` coercion; a `NaN` makes `===` and the orderings
false and `!==` true. -/
def testBinary (left op right : String) : Option ShellResult :=
  match op with
  | "=" | "==" => some (if left == right then resOk else resNo)
  | "!=" => some (if left ≠ right then resOk else resNo)
  | "-eq" => some (match jsNumber left, jsNumber right with
    | some l, some r => if l == r then resOk else resNo
    | _, _ => resNo)
  | "-ne" => some (match jsNumber left, jsNumber right with
    | some l, some r => if l ≠ r then resOk else resNo
    | _, _ => resOk)
  | "-lt" => some (match jsNumber left, jsNumber right with
    | some l, some r => if l < r then resOk else resNo
    | _, _ => resNo)
  | "-le" => some (match jsNumber left, jsNumber right with
    | some l, some r => if l ≤ r then resOk else resNo
    | _, _ => resNo)
  | "-gt" => some (match jsNumber left, jsNumber right with
    | some l, some r => if l > r then resOk else resNo
    | _, _ => resNo)
  | "-ge" => some (match jsNumber left, jsNumber right with
    | some l, some r => if l ≥ r then resOk else resNo
    | _, _ => resNo)
  | _ => none

/-- `testExpr` of `shell.ts`: zero arguments are false; two arguments try
the unary predicates, three the binary ones; a leading `!` negates the
rest; anything else is false. -/
def testExpr : List String → M ShellResult
  | [] => pure resNo
  | a :: rest => do
    let r1 ← (if rest.length == 1 then testUnary a (rest.headD "") else pure none)
    match r1 with
    | some r => pure r
    | none =>
      match (if rest.length == 2 then testBinary a (rest.headD "") (rest.getD 1 "") else none) with
      | some r => pure r
      | none =>
        if a == "!" then do
          let r ← testExpr rest
          pure (if r.exitCode == 0 then resNo else resOk)
        else pure resNo

/-- `test` / `[`: the bracket form strips its final token before
evaluating. -/
def cmdTest (name : String) (args : List String) : M ShellResult :=
  testExpr (if name == "[" then args.dropLast else args)

def cmdBase64 (args : List String) (stdin : String) : M ShellResult := do
  let text ← (if args.length > 0 && args.headD "" ≠ "-d" then do
      let s ← getSt
      let ln := args.getLastD ""
      let c ← safeRead (resolvePath ln s.cwd)
      pure (match c with | some t => t | none => "")
    else pure stdin)
  let s ← getSt
  if args.contains "-d" || args.contains "--decode" then
    match s.oracle.atobFn (jsTrim text) with
    | some dec => pure (ok dec)
    | none => throwErr "InvalidCharacterError"
  else
    match s.oracle.btoaFn text with
    | some enc => pure (ok (enc ++ "\n"))
    | none => throwErr "InvalidCharacterError"

/-- `md5sum`/`sha256sum`: `md5sum` is silently SHA-1 (WebCrypto has no
MD5); two spaces before the filename, `-` when reading stdin. -/
def cmdDigest (name : String) (args : List String) (stdin : String) : M ShellResult := do
  let algo := if name == "md5sum" then "SHA-1" else "SHA-256"
  let text ← textFromOr args stdin
  let s ← getSt
  let fname := args.headD "-"
  pure (ok (s.oracle.digestHex algo text ++ "  " ++ fname ++ "\n"))

def teeLoop (text : String) : List String → M Unit
  | [] => pure ()
  | f :: rest => do
    let s ← getSt
    writeGroupFile (resolvePath f s.cwd) text
    teeLoop text rest

def cmdTee (args : List String) (stdin : String) : M ShellResult := do
  teeLoop stdin args
  pure (ok stdin)

def cmdBasename (args : List String) : ShellResult :=
  let p := args.headD ""
  let p1 := if jsEndsWith p "/" then jsSlice p 0 (p.length - 1) else p
  let base0 := (jsSplit p1 '/').getLastD ""
  let suffix := args.getD 1 ""
  let base :=
    if suffix ≠ "" && jsEndsWith base0 suffix then jsSlice base0 0 (base0.length - suffix.length)
    else base0
  ok (base ++ "\n")

def cmdDirname (args : List String) : ShellResult :=
  let p := args.headD ""
  let joined := joinSlash ((jsSplit p '/').dropLast)
  ok ((if joined == "" then "." else joined) ++ "\n")

def cmdRev (args : List String) (stdin : String) : M ShellResult := do
  let text ← textFromOr args stdin
  pure (ok (String.intercalate "\n"
    ((jsSplit text '\n').map (fun l => String.mk l.toList.reverse))))

def cmdYes (args : List String) : ShellResult :=
  ok (String.intercalate "\n" (List.replicate 100 (args.headD "y")) ++ "\n")

def cmdJq (args : List String) (stdin : String) : M ShellResult := do
  let expr := args.headD "."
  let text ← (if args.length > 1 then do
      let s ← getSt
      let a1 := args.getD 1 ""
      let c ← safeRead (resolvePath a1 s.cwd)
      pure (match c with | some t => t | none => "")
    else pure stdin)
  let s ← getSt
  match s.oracle.jqEval expr text with
  | Except.ok j => pure (ok (j ++ "\n"))
  | Except.error e => pure (fail1 ("jq: " ++ e))

def SUPPORTED_COMMANDS : List String :=
  ["echo", "printf", "cat", "head", "tail", "wc", "grep", "sort", "uniq",
   "tr", "cut", "sed", "awk", "ls", "mkdir", "cp", "mv", "rm", "touch",
   "pwd", "cd", "date", "env", "printenv", "export", "sleep", "seq",
   "true", "false", "test", "base64", "md5sum", "sha256sum", "tee",
   "basename", "dirname", "xargs", "rev", "yes", "jq", "which", "command"]

def cmdWhich (name : String) (args : List String) : ShellResult :=
  let target := (args.filter (fun a => !(jsStartsWith a "-"))).headD ""
  if SUPPORTED_COMMANDS.contains target then ok ("/usr/bin/" ++ target ++ "\n")
  else fail1 (name ++ ": " ++ target ++ ": not found")

def unknownMsg (name : String) : String :=
  name ++ ": command not found. Available: echo, cat, head, tail, grep, sort, " ++
  "sed, awk, cut, tr, uniq, wc, ls, mkdir, cp, mv, rm, touch, pwd, cd, date, " ++
  "sleep, seq, base64, jq, tee, xargs, test, rev, basename, dirname. " ++
  "For complex logic, use the \"javascript\" tool instead."

-- ---------------------------------------------------------------------------
-- Dispatch and single-command execution
-- ---------------------------------------------------------------------------

/-- `dispatch` of `shell.ts`, parameterised by the single-command runner the
`xargs` arm re-enters (`selfRun`). -/
def dispatchOf (selfRun : String → String → M ShellResult) (name : String)
    (args : List String) (stdin : String) : M ShellResult :=
  match name with
  | "echo" => pure (ok (String.intercalate " " args ++ "\n"))
  | "printf" => pure (cmdPrintf args)
  | "cat" => cmdCat args stdin
  | "head" => cmdHead args stdin
  | "tail" => cmdTail args stdin
  | "wc" => cmdWc args stdin
  | "grep" => cmdGrep args stdin
  | "sort" => cmdSort args stdin
  | "uniq" => cmdUniq args stdin
  | "tr" => pure (cmdTr args stdin)
  | "cut" => cmdCut args stdin
  | "sed" => cmdSed args stdin
  | "awk" => cmdAwk args stdin
  | "ls" => cmdLs args
  | "mkdir" => cmdMkdir args
  | "touch" => cmdTouch args
  | "cp" => cmdCp args
  | "mv" => cmdMv args
  | "rm" => cmdRm args
  | "pwd" => cmdPwd
  | "cd" => cmdCd args
  | "date" => cmdDate
  | "env" | "printenv" => cmdEnv
  | "export" => cmdExport args
  | "sleep" => pure (ok "")
  | "seq" => cmdSeq args
  | "true" => pure (ok "")
  | "false" => pure (fail1 "")
  | "test" | "[" => cmdTest name args
  | "base64" => cmdBase64 args stdin
  | "md5sum" | "sha256sum" => cmdDigest name args stdin
  | "tee" => cmdTee args stdin
  | "basename" => pure (cmdBasename args)
  | "dirname" => pure (cmdDirname args)
  | "xargs" =>
    if args.isEmpty then pure (ok stdin)
    else
      let lines := (jsSplit (jsTrim stdin) '\n').filter (fun x => x ≠ "")
      selfRun (String.intercalate " " args ++ " " ++ String.intercalate " " lines) ""
  | "rev" => cmdRev args stdin
  | "yes" => pure (cmdYes args)
  | "jq" => cmdJq args stdin
  | "which" | "command" => pure (cmdWhich name args)
  | _ => pure (fail (unknownMsg name) 127)

/-- The variable-assignment test `/^[A-Za-z_]\w*=/.test(name)`. -/
def isAssignToken (name : String) : Bool :=
  match name.toList with
  | c :: rest => (c.isAlpha || c == '_') && (rest.dropWhile isWordChar).head? == some '='
  | [] => false

/-- JS string concatenation stringifies `null` (the append-redirect branch
reads the old content with `safeRead`, whose `null` has no `?? ''`). -/
def jsNullStr : Option String → String
  | none => "null"
  | some s => s

/-- `runSingle` of `shell.ts`, parameterised by the runner `xargs` uses:
timeout poll, redirect extraction (append before truncate), variable
expansion, tokenisation, the `NAME=value` assignment special case, dispatch,
and finally the redirect write. -/
def runSingleOf (selfRun : String → String → M ShellResult) (raw : String)
    (stdin : String) : M ShellResult := do
  checkTimeout
  let rl := raw.toList
  let redir : Option String × Option String × List Char :=
    match findRedir true rl with
    | some pw => (some pw.2, none, pw.1.toList)
    | none =>
      match findRedir false rl with
      | some pw => (none, some pw.2, pw.1.toList)
      | none => (none, none, rl)
  let s ← getSt
  let cmdStr := expandVars (String.mk redir.2.2) s.env
  match tokenize cmdStr with
  | [] => pure ⟨"", "", 0⟩
  | nm :: args =>
    if isAssignToken nm && args.isEmpty then do
      let eqPos := (nm.toList.takeWhile (fun c => c ≠ '=')).length
      let k := String.mk (nm.toList.take eqPos)
      let v := String.mk (nm.toList.drop (eqPos + 1))
      modifySt (fun st => { st with env := recordSet st.env k v })
      pure ⟨"", "", 0⟩
    else do
      let r ← dispatchOf selfRun nm args stdin
      match redir.2.1 with
      | some wf => do
        let s2 ← getSt
        writeGroupFile (resolvePath wf s2.cwd) r.stdout
        pure ⟨"", r.stderr, r.exitCode⟩
      | none =>
        match redir.1 with
        | some af => do
          let s2 ← getSt
          let path := resolvePath af s2.cwd
          let existing ← safeRead path
          writeGroupFile path (jsNullStr existing ++ r.stdout)
          pure ⟨"", r.stderr, r.exitCode⟩
        | none => pure r

/-- The `xargs` re-entry with exhausted recursion budget.  The source's
recursion always bottoms out because each nesting consumes one argument
token; the budget only exists to make the embedding total and is never hit
in any theorem below. -/
def xargsStub : String → String → M ShellResult :=
  fun _ _ => pure (fail1 "[xargs recursion limit]")

/-- `runSingle` at a given `xargs` nesting budget. -/
def runSingleFix : Nat → String → String → M ShellResult
  | 0, raw, stdin => runSingleOf xargsStub raw stdin
  | n + 1, raw, stdin => runSingleOf (runSingleFix n) raw stdin

/-- `runSingle` of `shell.ts` (`fuel` bounds only `xargs` re-entry). -/
def runSingle (fuel : Nat) (raw : String) (stdin : String) : M ShellResult :=
  runSingleFix fuel raw stdin

/-- `dispatch` of `shell.ts` as called from `runSingle`. -/
def dispatch (fuel : Nat) (name : String) (args : List String) (stdin : String) :
    M ShellResult :=
  dispatchOf (runSingleFix fuel) name args stdin

-- ---------------------------------------------------------------------------
-- Pipes and the pipeline driver
-- ---------------------------------------------------------------------------

/-- The stage loop of `runPipe`: poll the timeout, then run the stage with
the previous stage's stdout as stdin; the last stage's result is the
segment's result. -/
def runStages (fuel : Nat) : List String → ShellResult → M ShellResult
  | [], last => pure last
  | part :: rest, last => do
    checkTimeout
    let r ← runSingleFix fuel part last.stdout
    runStages fuel rest r

/-- `runPipe` of `shell.ts`: split on single `|`, then chain stages. -/
def runPipe (fuel : Nat) (line : String) : M ShellResult :=
  runStages fuel (pipeParts line) ⟨"", "", 0⟩

/-- The per-segment execution choice of `runPipeline`: a segment containing
a `|` but no `||` goes through the pipe executor, otherwise it is run as a
single trimmed command. -/
def execSeg (fuel : Nat) (seg : Segment) : M ShellResult :=
  if hasPipeChar seg.cmd && !(hasPipePipe seg.cmd.toList) then runPipe fuel seg.cmd
  else runSingleFix fuel (jsTrim seg.cmd) ""

/-- The segment loop of `runPipeline`: poll the timeout, skip blank
segments, execute, then apply the `&&`/`||` short-circuit using the
segment's own trailing operator. -/
def runSegments (fuel : Nat) : List Segment → ShellResult → M ShellResult
  | [], last => pure last
  | seg :: rest, last => do
    checkTimeout
    if jsTrim seg.cmd == "" then runSegments fuel rest last
    else do
      let r ← execSeg fuel seg
      if seg.op == "&&" && !(r.exitCode == 0) then pure r
      else if seg.op == "||" && r.exitCode == 0 then pure r
      else runSegments fuel rest r

/-- `runPipeline` of `shell.ts`. -/
def runPipeline (fuel : Nat) (line : String) : M ShellResult :=
  runSegments fuel (splitOnOperators line) ⟨"", "", 0⟩

-- ---------------------------------------------------------------------------
-- `executeShell`
-- ---------------------------------------------------------------------------

/-- The fresh context `executeShell` builds: starting cwd `.`, fixed env
defaults overlaid by the caller's bindings, `timeoutMs = timeoutSec * 1000`,
and `startedAt = Date.now()` (one reading from the schedule). -/
def initSt (groupId : String) (envOverlay : List (String × String)) (timeoutSec : Nat)
    (fs : List (String × String)) (clock : List Nat) (t0 : Nat) (orc : Oracle) : St :=
  let started : Nat × List Nat := match clock with
    | [] => (t0, [])
    | t :: r => (t, r)
  { groupId := groupId
    cwd := "."
    env := envOverlay.foldl (fun e kv => recordSet e kv.1 kv.2)
      [("HOME", "/workspace"), ("PATH", "/usr/bin"), ("PWD", "/workspace")]
    timeoutMs := timeoutSec * 1000
    startedAt := started.1
    fs := fs
    clock := started.2
    curTime := started.1
    oracle := orc }

/-- `executeShell` together with its final state: run the pipeline on the
trimmed command and convert any thrown error into
`⟨"", message, 1⟩`. -/
def executeShellCore (fuel : Nat) (command : String) (groupId : String)
    (envOverlay : List (String × String)) (timeoutSec : Nat)
    (fs : List (String × String)) (clock : List Nat) (t0 : Nat) (orc : Oracle) :
    ShellResult × St :=
  match runPipeline fuel (jsTrim command) (initSt groupId envOverlay timeoutSec fs clock t0 orc) with
  | (Except.ok r, st') => (r, st')
  | (Except.error msg, st') => (⟨"", msg, 1⟩, st')

/-- `executeShell` of `shell.ts` (the caller only sees the `ShellResult`). -/
def executeShell (fuel : Nat) (command : String) (groupId : String)
    (envOverlay : List (String × String)) (timeoutSec : Nat)
    (fs : List (String × String)) (clock : List Nat) (t0 : Nat) (orc : Oracle) :
    ShellResult :=
  (executeShellCore fuel command groupId envOverlay timeoutSec fs clock t0 orc).1

/-- A concrete host oracle for closed evaluations: patterns match as
literal substrings (which is what JS `RegExp` does on the alphanumeric
patterns used below), and the remaining collaborators are inert. -/
def litOracle : Oracle :=
  { reCompile := fun pat _ => some (fun line => listHasRun pat.toList line.toList)
    toISO := fun _ => "1970-01-01T00:00:00.000Z"
    digestHex := fun _ _ => ""
    btoaFn := fun _ => some ""
    atobFn := fun _ => some ""
    sedParse := fun _ => none
    reReplace := fun _ _ _ t => t
    awkPrint := fun _ => none
    jqEval := fun _ _ => Except.error "parse error"
    sortNum := fun l => l }

-- ---------------------------------------------------------------------------
-- Auxiliary definitions for the claims
-- ---------------------------------------------------------------------------

/-- Modelled from the spec: claim C1's composition order, in which variable
expansion is applied to the command string *before* the trailing `>`/`>>`
redirect suffix is detected and removed.  Everything downstream (tokenise,
assignment, dispatch, redirect write) is identical to `runSingleOf`; only
the first two phases are swapped.  This is the comparison definition for a
refinement check, not part of the source. -/
def specOrderSingle (selfRun : String → String → M ShellResult) (raw : String)
    (stdin : String) : M ShellResult := do
  checkTimeout
  let s ← getSt
  let expanded := expandVars raw s.env
  let rl := expanded.toList
  let redir : Option String × Option String × List Char :=
    match findRedir true rl with
    | some pw => (some pw.2, none, pw.1.toList)
    | none =>
      match findRedir false rl with
      | some pw => (none, some pw.2, pw.1.toList)
      | none => (none, none, rl)
  let cmdStr := String.mk redir.2.2
  match tokenize cmdStr with
  | [] => pure ⟨"", "", 0⟩
  | nm :: args =>
    if isAssignToken nm && args.isEmpty then do
      let eqPos := (nm.toList.takeWhile (fun c => c ≠ '=')).length
      let k := String.mk (nm.toList.take eqPos)
      let v := String.mk (nm.toList.drop (eqPos + 1))
      modifySt (fun st => { st with env := recordSet st.env k v })
      pure ⟨"", "", 0⟩
    else do
      let r ← dispatchOf selfRun nm args stdin
      match redir.2.1 with
      | some wf => do
        let s2 ← getSt
        writeGroupFile (resolvePath wf s2.cwd) r.stdout
        pure ⟨"", r.stderr, r.exitCode⟩
      | none =>
        match redir.1 with
        | some af => do
          let s2 ← getSt
          let path := resolvePath af s2.cwd
          let existing ← safeRead path
          writeGroupFile path (jsNullStr existing ++ r.stdout)
          pure ⟨"", r.stderr, r.exitCode⟩
        | none => pure r

/-- The state after one `Date.now()` reading. -/
def popClock (s : St) : St :=
  match s.clock with
  | [] => s
  | t :: r => { s with clock := r, curTime := t }

/-- The value the next `Date.now()` reading returns. -/
def nextNow (s : St) : Nat :=
  match s.clock with
  | [] => s.curTime
  | t :: _ => t

/-- No two adjacent `&` characters. -/
def noAmpAmp : List Char → Bool
  | a :: b :: t => !(a == '&' && b == '&') && noAmpAmp (b :: t)
  | _ => true

/-- The command contains none of the control operators `;`, `&&`, `||`,
`|` (no `;`, no `|` at all, and no adjacent `&&`). -/
def noCtrlOps (l : List Char) : Bool :=
  l.all (fun c => c ≠ ';' && c ≠ '|') && noAmpAmp l

-- ---------------------------------------------------------------------------
-- General lemmas
-- ---------------------------------------------------------------------------

theorem M_bind_apply {α β : Type} (m : M α) (f : α → M β) (s : St) :
    (m >>= f) s =
      match m s with
      | (Except.ok a, s') => f a s'
      | (Except.error e, s') => (Except.error e, s') := rfl

theorem M_bind_pure {α : Type} (m : M α) : (m >>= fun a => pure a) = m := by
  funext s
  show (match m s with
    | (Except.ok a, s') => (Except.ok a, s')
    | (Except.error e, s') => (Except.error e, s')) = m s
  rcases m s with ⟨r, s'⟩
  cases r <;> rfl

/-- One `checkTimeout` poll: consume a clock reading and either throw past
the deadline or succeed. -/
theorem checkTimeout_apply (s : St) :
    checkTimeout s =
      (if nextNow s - s.startedAt > s.timeoutMs
        then (Except.error "[command timed out]", popClock s)
        else (Except.ok (), popClock s)) := by
  rcases hc : s.clock with _ | ⟨t, r⟩ <;>
    simp [checkTimeout, jsNow, getSt, throwErr, nextNow, popClock, hc, Bind.bind] <;>
    split <;> rfl

-- ---------------------------------------------------------------------------
-- Claim theorems
-- ---------------------------------------------------------------------------

/-- C4: `test -z ""` is claimed to exit 0, but the tokenizer drops the
empty quoted argument (`if (current) tokens.push(current)`), so `testExpr`
sees the single argument `-z` and returns exit code 1.  The other two
examples of the claim behave as stated: `test -z "x"` exits 1 and
`test 3 -lt 5` exits 0.  The last conjunct exhibits the root cause: the
token list of `test -z ""` has no third entry. -/
theorem spec_c4_test_examples :
    executeShell 3 "test -z \"\"" "g" [] 30 [] [] 0 litOracle = ⟨"", "", 1⟩
    ∧ executeShell 3 "test -z \"x\"" "g" [] 30 [] [] 0 litOracle = ⟨"", "", 1⟩
    ∧ executeShell 3 "test 3 -lt 5" "g" [] 30 [] [] 0 litOracle = ⟨"", "", 0⟩
    ∧ tokenize "test -z \"\"" = ["test", "-z"] :=
  ⟨rfl, rfl, rfl, rfl⟩

/-- C5: the append redirect reads the old content with `safeRead`, whose
`null` for a missing file is concatenated *without* the `?? ''` used
everywhere else, so JS renders it as the string `null`: appending `hi` to
a missing `f` leaves `f` containing `nullhi\n` instead of `hi\n`.  With an
existing file the append works as described, and the caller sees empty
stdout with the builtin's exit code. -/
theorem spec_c5_append_redirect :
    (executeShellCore 3 "echo hi >> f" "g" [] 30 [] [] 0 litOracle).1 = ⟨"", "", 0⟩
    ∧ (executeShellCore 3 "echo hi >> f" "g" [] 30 [] [] 0 litOracle).2.fs
        = [("f", "nullhi\n")]
    ∧ (executeShellCore 3 "echo hi >> f" "g" [] 30 [("f", "old\n")] [] 0 litOracle).2.fs
        = [("f", "old\nhi\n")] :=
  ⟨rfl, rfl, rfl⟩

/-- C7: pipe stages run left to right; the next stage's stdin is exactly
the previous stage's stdout (never its stderr), and an exhausted stage
list returns the last result unchanged, so a pipe's result is its final
stage's `ShellResult`.  `echo hi | tr h H` produces `Hi\n`. -/
theorem spec_c7_pipe_chaining :
    (∀ (fuel : Nat) (part : String) (rest : List String) (prev : ShellResult) (st : St),
      runStages fuel (part :: rest) prev st =
        (do
          checkTimeout
          let r ← runSingle fuel part prev.stdout
          runStages fuel rest r) st)
    ∧ (∀ (fuel : Nat) (prev : ShellResult) (st : St),
        runStages fuel [] prev st = (Except.ok prev, st))
    ∧ pipeParts "echo hi | tr h H" = ["echo hi", "tr h H"]
    ∧ executeShell 3 "echo hi | tr h H" "g" [] 30 [] [] 0 litOracle = ⟨"Hi\n", "", 0⟩ :=
  ⟨fun _ _ _ _ _ => rfl, fun _ _ _ => rfl, rfl, rfl⟩

-- ---------------------------------------------------------------------------
-- C10: mv onto itself
-- ---------------------------------------------------------------------------

theorem fsGet_cons_hit (hd : String × String) (tl : List (String × String)) (k : String)
    (h : (hd.1 == k) = true) : fsGet (hd :: tl) k = some hd.2 := by
  simp only [fsGet, List.find?_cons, h]
  rfl

theorem fsGet_cons_miss (hd : String × String) (tl : List (String × String)) (k : String)
    (h : (hd.1 == k) = false) : fsGet (hd :: tl) k = fsGet tl k := by
  simp only [fsGet, List.find?_cons, h]

theorem fsGet_map_set (fs : List (String × String)) (k v : String) :
    fsGet (fs.map (fun kv => if kv.1 == k then (k, v) else kv)) k =
      if fs.any (fun kv => kv.1 == k) then some v else none := by
  induction fs with
  | nil => rfl
  | cons hd tl ih =>
    show fsGet ((if (hd.1 == k) = true then (k, v) else hd) ::
      tl.map (fun kv => if kv.1 == k then (k, v) else kv)) k = _
    rcases Bool.eq_false_or_eq_true (hd.1 == k) with hh | hh
    · rw [if_pos hh, fsGet_cons_hit (k, v) _ k (by simp)]
      have ha : ((hd :: tl).any fun kv => kv.1 == k) = true := by
        simp only [List.any_cons, hh, Bool.true_or]
      simp only [ha, if_true]
    · rw [if_neg (by simp [hh]), fsGet_cons_miss hd _ k hh, ih]
      have ha : ((hd :: tl).any fun kv => kv.1 == k) = (tl.any fun kv => kv.1 == k) := by
        simp only [List.any_cons, hh, Bool.false_or]
      simp only [ha]

theorem fsGet_append_one (fs : List (String × String)) (k v : String) :
    fsGet (fs ++ [(k, v)]) k =
      match fsGet fs k with
      | some w => some w
      | none => some v := by
  induction fs with
  | nil => simp [fsGet, List.find?]
  | cons hd tl ih =>
    cases hh : (hd.1 == k) with
    | true => simp [fsGet, List.find?, hh]
    | false =>
      simp only [fsGet, List.cons_append, List.find?, hh] at ih ⊢
      exact ih

theorem fsGet_fsSet_self (fs : List (String × String)) (k v : String) :
    fsGet (fsSet fs k v) k = some v := by
  by_cases h : fs.any (fun kv => kv.1 == k) = true
  · simp only [fsSet, if_pos h]
    rw [fsGet_map_set]
    simp [h]
  · have hf : fs.find? (fun kv => kv.1 == k) = none := by
      rw [List.find?_eq_none]
      intro kv hkv hc
      exact h (List.any_eq_true.2 ⟨kv, hkv, hc⟩)
    have hn : fsGet fs k = none := by simp [fsGet, hf]
    simp only [fsSet, if_neg h]
    rw [fsGet_append_one, hn]

theorem fsGet_fsDel_self (fs : List (String × String)) (k : String) :
    fsGet (fsDel fs k) k = none := by
  induction fs with
  | nil => rfl
  | cons hd tl ih =>
    by_cases hh : hd.1 = k
    · simp only [fsDel, List.filter, hh]
      simp only [fsDel] at ih
      simpa using ih
    · have hhb : (hd.1 == k) = false := by simp [hh]
      have hfil : fsDel (hd :: tl) k = hd :: fsDel tl k := by
        simp [fsDel, List.filter, hh]
      rw [hfil, fsGet_cons_miss hd _ k hhb]
      exact ih

/-- C10: `mv` is read source / write destination / delete source.  When
both arguments resolve to the same existing file, the command still
reports success (exit 0) but the final delete removes the file, so the
content is lost.  `mv f f` on a workspace holding only `f` leaves the
workspace empty. -/
theorem spec_c10_mv_self_delete :
    (∀ (a b : String) (st : St) (k c : String),
      resolvePath a st.cwd = resolvePath b st.cwd →
      parsePathKey (resolvePath a st.cwd) = Except.ok k →
      fsGet st.fs k = some c →
      ∃ st', cmdMv [a, b] st = (Except.ok (ok ""), st') ∧ fsGet st'.fs k = none)
    ∧ (executeShellCore 3 "mv f f" "g" [] 30 [("f", "data")] [] 0 litOracle).1 = ⟨"", "", 0⟩
    ∧ (executeShellCore 3 "mv f f" "g" [] 30 [("f", "data")] [] 0 litOracle).2.fs = [] := by
  refine ⟨?_, rfl, rfl⟩
  intro a b st k c hab hk hget
  refine ⟨{ st with fs := fsDel (fsSet st.fs k c) k }, ?_, ?_⟩
  · have hsrc : safeRead (resolvePath a st.cwd) st = (Except.ok (some c), st) := by
      simp [safeRead, readGroupFile, hk, hget]
    have hw : writeGroupFile (resolvePath b st.cwd) c st =
        (Except.ok (), { st with fs := fsSet st.fs k c }) := by
      rw [← hab]
      simp [writeGroupFile, hk]
    have hd : deleteGroupFile (resolvePath a st.cwd) { st with fs := fsSet st.fs k c } =
        (Except.ok (), { st with fs := fsDel (fsSet st.fs k c) k }) := by
      simp [deleteGroupFile, hk, fsGet_fsSet_self]
    show (do
      let content ← safeRead (resolvePath a st.cwd)
      match content with
      | none => pure (fail1 s!"mv: {a}: No such file")
      | some c2 => do
        writeGroupFile (resolvePath b st.cwd) c2
        deleteGroupFile (resolvePath a st.cwd)
        pure (ok "")) st = _
    rw [M_bind_apply, hsrc]
    show (do
      writeGroupFile (resolvePath b st.cwd) c
      deleteGroupFile (resolvePath a st.cwd)
      pure (ok "")) st = _
    rw [M_bind_apply, hw]
    show (do
      deleteGroupFile (resolvePath a st.cwd)
      pure (ok "")) { st with fs := fsSet st.fs k c } = _
    rw [M_bind_apply, hd]
    rfl
  · exact fsGet_fsDel_self _ _

-- ---------------------------------------------------------------------------
-- C9: resolvePath confinement
-- ---------------------------------------------------------------------------

theorem splitChar_ne_nil (sep : Char) (l : List Char) : splitChar sep l ≠ [] := by
  induction l with
  | nil => simp [splitChar]
  | cons c cs ih =>
    simp only [splitChar]
    by_cases h : (c == sep) = true
    · simp [h]
    · simp only [h, if_neg, Bool.false_eq_true, not_false_iff]
      rcases hr : splitChar sep cs with _ | ⟨hd, tl⟩
      · exact absurd hr ih
      · simp

theorem splitChar_not_mem (sep : Char) (l : List Char) :
    ∀ piece ∈ splitChar sep l, sep ∉ piece := by
  induction l with
  | nil =>
    intro piece hp
    simp [splitChar] at hp
    simp [hp]
  | cons c cs ih =>
    intro piece hp
    simp only [splitChar] at hp
    by_cases h : (c == sep) = true
    · simp only [h, if_pos] at hp
      rcases List.mem_cons.1 hp with h1 | h1
      · simp [h1]
      · exact ih piece h1
    · simp only [h, if_neg, Bool.false_eq_true, not_false_iff] at hp
      rcases hr : splitChar sep cs with _ | ⟨hd, tl⟩
      · exact absurd hr (splitChar_ne_nil sep cs)
      · rw [hr] at hp
        rcases List.mem_cons.1 hp with h1 | h1
        · subst h1
          intro hmem
          rcases List.mem_cons.1 hmem with h2 | h2
          · rw [h2] at h
            simp at h
          · exact ih hd (by rw [hr]; exact List.mem_cons_self hd tl) h2
        · exact ih piece (by rw [hr]; exact List.mem_cons_of_mem hd h1)

/-- The property every emitted path segment satisfies. -/
def goodSeg (s : String) : Prop :=
  s ≠ "" ∧ s ≠ "." ∧ s ≠ ".." ∧ ('/' ∉ s.toList)

theorem mem_dropLast_mem {α : Type} {x : α} : ∀ {l : List α}, x ∈ l.dropLast → x ∈ l := by
  intro l
  induction l with
  | nil => intro h; simp at h
  | cons a t ih =>
    intro h
    rcases t with _ | ⟨b, t'⟩
    · simp at h
    · rw [List.dropLast_cons₂] at h
      rcases List.mem_cons.1 h with h1 | h1
      · exact h1 ▸ List.mem_cons_self a _
      · exact List.mem_cons_of_mem a (ih h1)

theorem mem_resolveSegs_aux :
    ∀ (segs : List String) (acc : List String),
      (∀ x ∈ acc, goodSeg x) → (∀ seg ∈ segs, '/' ∉ seg.toList) →
      ∀ x ∈ segs.foldl
        (fun acc seg =>
          if seg == "." || seg == "" then acc
          else if seg == ".." then acc.dropLast
          else acc ++ [seg]) acc, goodSeg x := by
  intro segs
  induction segs with
  | nil =>
    intro acc hacc _ x hx
    exact hacc x hx
  | cons seg rest ih =>
    intro acc hacc hsegs x hx
    simp only [List.foldl_cons] at hx
    refine ih _ ?_ (fun s hs => hsegs s (List.mem_cons_of_mem seg hs)) x hx
    intro y hy
    by_cases h1 : (seg == "." || seg == "") = true
    · rw [if_pos h1] at hy
      exact hacc y hy
    · rw [if_neg (by simp [h1])] at hy
      by_cases h2 : (seg == "..") = true
      · rw [if_pos h2] at hy
        exact hacc y (mem_dropLast_mem hy)
      · rw [if_neg (by simp [h2])] at hy
        rcases List.mem_append.1 hy with h3 | h3
        · exact hacc y h3
        · have hys : y = seg := by simpa using h3
          subst hys
          simp only [Bool.or_eq_true, beq_iff_eq] at h1 h2
          push_neg at h1
          refine ⟨h1.2, h1.1, by simpa using h2, hsegs y (List.mem_cons_self y rest)⟩

theorem mem_resolveSegs (segs : List String) (h : ∀ seg ∈ segs, '/' ∉ seg.toList) :
    ∀ x ∈ resolveSegs segs, goodSeg x := by
  intro x hx
  exact mem_resolveSegs_aux segs [] (by intro y hy; simp at hy) h x hx

theorem resolvePathParts_good (p cwd : String) :
    ∀ s ∈ resolvePathParts p cwd, goodSeg s := by
  intro s hs
  unfold resolvePathParts at hs
  by_cases h0 : (stripWorkspace p == "" || stripWorkspace p == "/") = true
  · rw [if_pos h0] at hs
    simp at hs
  · rw [if_neg h0] at hs
    refine mem_resolveSegs _ ?_ s hs
    intro seg hseg
    rcases List.mem_map.1 hseg with ⟨piece, hpiece, hmk⟩
    subst hmk
    exact splitChar_not_mem '/' _ piece hpiece

/-- C9: every segment of a resolved path is non-empty, not `.`, not `..`
and slash-free; the result is those segments joined (or `.` when none
remain, so `..` can never climb above the workspace root), and never
starts with a slash.  Concretely, `cd ../../..` from the root leaves the
cwd at `.`, so `pwd` still prints `/workspace`. -/
theorem spec_c9_resolve_path_confined :
    (∀ (p cwd : String),
      (∀ s ∈ resolvePathParts p cwd,
        s ≠ "" ∧ s ≠ "." ∧ s ≠ ".." ∧ ('/' ∉ s.toList))
      ∧ resolvePath p cwd =
          (if (resolvePathParts p cwd).isEmpty then "."
            else joinSlash (resolvePathParts p cwd))
      ∧ (∀ c, (resolvePath p cwd).toList.head? = some c → c ≠ '/'))
    ∧ resolvePath "../../.." "." = "."
    ∧ executeShell 3 "cd ../../..; pwd" "g" [] 30 [] [] 0 litOracle
        = ⟨"/workspace\n", "", 0⟩ := by
  refine ⟨?_, rfl, rfl⟩
  intro p cwd
  refine ⟨resolvePathParts_good p cwd, rfl, ?_⟩
  intro c hc
  rcases hp : resolvePathParts p cwd with _ | ⟨h1, t1⟩
  · rw [show resolvePath p cwd = "." by simp [resolvePath, hp]] at hc
    simp at hc
    subst hc
    decide
  · have hgood : goodSeg h1 := resolvePathParts_good p cwd h1 (hp ▸ List.mem_cons_self h1 t1)
    have hjoin : resolvePath p cwd = joinSlash (h1 :: t1) := by
      simp [resolvePath, hp]
    rcases hh1 : h1.toList with _ | ⟨c0, cs0⟩
    · exfalso
      apply hgood.1
      have : h1.data = [] := hh1
      cases h1
      simp_all
    · have hhead : (joinSlash (h1 :: t1)).toList.head? = some c0 := by
        rcases t1 with _ | ⟨x, xs⟩
        · show h1.toList.head? = some c0
          rw [hh1]
          rfl
        · show ((h1 ++ "/") ++ joinSlash (x :: xs)).toList.head? = some c0
          have hdata : ((h1 ++ "/") ++ joinSlash (x :: xs)).toList
              = h1.data ++ (['/'] ++ (joinSlash (x :: xs)).data) := by
            show ((h1 ++ "/") ++ joinSlash (x :: xs)).data = _
            rw [String.data_append, String.data_append]
            simp [List.append_assoc]
          rw [hdata]
          have hh1d : h1.data = c0 :: cs0 := hh1
          rw [hh1d]
          rfl
      rw [hjoin, hhead] at hc
      have hcc : c = c0 := (Option.some.inj hc).symm
      subst hcc
      intro hslash
      apply hgood.2.2.2
      rw [hh1, hslash]
      exact List.mem_cons_self '/' cs0

-- ---------------------------------------------------------------------------
-- Unfolding equations for the pipeline driver
-- ---------------------------------------------------------------------------

theorem runSegments_cons (fuel : Nat) (seg : Segment) (rest : List Segment)
    (last : ShellResult) (st : St) :
    runSegments fuel (seg :: rest) last st =
      match checkTimeout st with
      | (Except.ok _, s1) =>
        if jsTrim seg.cmd == "" then runSegments fuel rest last s1
        else
          match execSeg fuel seg s1 with
          | (Except.ok r, s2) =>
            if seg.op == "&&" && !(r.exitCode == 0) then (Except.ok r, s2)
            else if seg.op == "||" && r.exitCode == 0 then (Except.ok r, s2)
            else runSegments fuel rest r s2
          | (Except.error e, s2) => (Except.error e, s2)
      | (Except.error e, s1) => (Except.error e, s1) := by
  conv_lhs => rw [runSegments]
  rw [M_bind_apply]
  rcases checkTimeout st with ⟨cr, s1⟩
  cases cr with
  | error e => rfl
  | ok u =>
    by_cases h : (jsTrim seg.cmd == "") = true
    · simp only [if_pos h]
    · simp only [if_neg h]
      rw [M_bind_apply]
      rcases execSeg fuel seg s1 with ⟨er, s2⟩
      cases er with
      | error e => rfl
      | ok r =>
        by_cases h1 : (seg.op == "&&" && !(r.exitCode == 0)) = true
        · simp only [if_pos h1]
          rfl
        · simp only [if_neg h1]
          by_cases h2 : (seg.op == "||" && r.exitCode == 0) = true
          · simp only [if_pos h2]
            rfl
          · simp only [if_neg h2]

theorem runStages_cons (fuel : Nat) (part : String) (rest : List String)
    (last : ShellResult) (st : St) :
    runStages fuel (part :: rest) last st =
      match checkTimeout st with
      | (Except.ok _, s1) =>
        match runSingleFix fuel part last.stdout s1 with
        | (Except.ok r, s2) => runStages fuel rest r s2
        | (Except.error e, s2) => (Except.error e, s2)
      | (Except.error e, s1) => (Except.error e, s1) := by
  conv_lhs => rw [runStages]
  rw [M_bind_apply]
  rcases checkTimeout st with ⟨cr, s1⟩
  cases cr with
  | error e => rfl
  | ok u =>
    simp only []
    rw [M_bind_apply]
    rcases runSingleFix fuel part last.stdout s1 with ⟨rr, s2⟩
    cases rr <;> rfl

-- ---------------------------------------------------------------------------
-- C2: operator short-circuiting
-- ---------------------------------------------------------------------------

/-- C2: after a non-blank segment executes with result `r`, a trailing
`&&` stops the pipeline when `r`'s exit code is non-zero and a trailing
`||` stops it when the exit code is zero — in both cases the driver
returns `r` itself, untouched by the remaining segments — while a `;` or
empty trailing operator always continues into the rest with `r` as the
running result.  `false && echo never` therefore yields exit code 1 with
empty stdout withoutrunning the second segment. -/
theorem spec_c2_short_circuit :
    (∀ (fuel : Nat) (seg : Segment) (rest : List Segment) (last r : ShellResult)
        (st st' : St),
      jsTrim seg.cmd ≠ "" →
      ((do checkTimeout; execSeg fuel seg) : M ShellResult) st = (Except.ok r, st') →
      ((seg.op = "&&" → r.exitCode ≠ 0 →
          runSegments fuel (seg :: rest) last st = (Except.ok r, st'))
        ∧ (seg.op = "||" → r.exitCode = 0 →
          runSegments fuel (seg :: rest) last st = (Except.ok r, st'))
        ∧ ((seg.op = ";" ∨ seg.op = "") →
          runSegments fuel (seg :: rest) last st = runSegments fuel rest r st')))
    ∧ executeShell 3 "false && echo never" "g" [] 30 [] [] 0 litOracle = ⟨"", "", 1⟩ := by
  refine ⟨?_, rfl⟩
  intro fuel seg rest last r st st' htrim hexec
  rw [M_bind_apply] at hexec
  have hbody := runSegments_cons fuel seg rest last st
  rcases hct : checkTimeout st with ⟨cr, s1⟩
  rw [hct] at hexec hbody
  cases cr with
  | error e => exact absurd hexec (by simp)
  | ok u =>
    simp only [] at hexec hbody
    have htrimb : (jsTrim seg.cmd == "") = false := by
      simp [htrim]
    rw [if_neg (by simp [htrimb])] at hbody
    rw [hexec] at hbody
    simp only [] at hbody
    refine ⟨?_, ?_, ?_⟩
    · intro hop hexit
      have hc1 : (seg.op == "&&" && !(r.exitCode == 0)) = true := by
        simp [hop, hexit]
      rw [if_pos hc1] at hbody
      exact hbody
    · intro hop hexit
      have hc1 : (seg.op == "&&" && !(r.exitCode == 0)) = false := by
        simp [hop]
      have hc2 : (seg.op == "||" && r.exitCode == 0) = true := by
        simp [hop, hexit]
      rw [if_neg (by simp [hc1]), if_pos hc2] at hbody
      exact hbody
    · intro hop
      have hc1 : (seg.op == "&&" && !(r.exitCode == 0)) = false := by
        rcases hop with h | h <;> simp [h]
      have hc2 : (seg.op == "||" && r.exitCode == 0) = false := by
        rcases hop with h | h <;> simp [h]
      rw [if_neg (by simp [hc1]), if_neg (by simp [hc2])] at hbody
      exact hbody

/-- Witness for C2 at `false && echo never`: the first segment's `&&`
with exit code 1 stops the pipeline. -/
theorem spec_c2_short_circuit_witness :
    runSegments 3 [⟨"false ", "&&"⟩, ⟨" echo never", ""⟩] ⟨"", "", 0⟩
        (initSt "g" [] 30 [] [] 0 litOracle)
      = (Except.ok ⟨"", "", 1⟩, initSt "g" [] 30 [] [] 0 litOracle) := by
  have h := (spec_c2_short_circuit.1 3 ⟨"false ", "&&"⟩ [⟨" echo never", ""⟩]
    ⟨"", "", 0⟩ ⟨"", "", 1⟩ (initSt "g" [] 30 [] [] 0 litOracle)
    (initSt "g" [] 30 [] [] 0 litOracle) (by decide) rfl).1 rfl (by decide)
  exact h

-- ---------------------------------------------------------------------------
-- C3: timeout aborts the whole pipeline
-- ---------------------------------------------------------------------------

/-- C3: when the wall clock has passed `startedAt + timeoutMs` at the poll
before a segment (or a pipe stage) begins, the driver throws immediately —
the result is the timeout error, independent of the pending segment and of
everything after it, so nothing further executes.  At the top level,
`executeShell` converts the throw into `⟨"", "[command timed out]", 1⟩`:
with `startedAt = t1` and a second reading `t2` past the deadline, any
non-blank command aborts this way. -/
theorem spec_c3_timeout_aborts :
    (∀ (fuel : Nat) (seg : Segment) (rest : List Segment) (last : ShellResult) (st : St),
      nextNow st - st.startedAt > st.timeoutMs →
      runSegments fuel (seg :: rest) last st
        = (Except.error "[command timed out]", popClock st))
    ∧ (∀ (fuel : Nat) (part : String) (rest : List String) (last : ShellResult) (st : St),
      nextNow st - st.startedAt > st.timeoutMs →
      runStages fuel (part :: rest) last st
        = (Except.error "[command timed out]", popClock st))
    ∧ (∀ (fuel : Nat) (cmd gid : String) (envO : List (String × String)) (tsec : Nat)
        (fs : List (String × String)) (t1 t2 t0 : Nat) (crest : List Nat) (orc : Oracle),
      splitOnOperators (jsTrim cmd) ≠ [] →
      t2 - t1 > tsec * 1000 →
      executeShellCore fuel cmd gid envO tsec fs (t1 :: t2 :: crest) t0 orc
        = (⟨"", "[command timed out]", 1⟩,
            popClock (initSt gid envO tsec fs (t1 :: t2 :: crest) t0 orc))) := by
  have hseg : ∀ (fuel : Nat) (seg : Segment) (rest : List Segment) (last : ShellResult)
      (st : St), nextNow st - st.startedAt > st.timeoutMs →
      runSegments fuel (seg :: rest) last st
        = (Except.error "[command timed out]", popClock st) := by
    intro fuel seg rest last st h
    rw [runSegments_cons, checkTimeout_apply, if_pos h]
  have hstage : ∀ (fuel : Nat) (part : String) (rest : List String) (last : ShellResult)
      (st : St), nextNow st - st.startedAt > st.timeoutMs →
      runStages fuel (part :: rest) last st
        = (Except.error "[command timed out]", popClock st) := by
    intro fuel part rest last st h
    rw [runStages_cons, checkTimeout_apply, if_pos h]
  refine ⟨hseg, hstage, ?_⟩
  intro fuel cmd gid envO tsec fs t1 t2 t0 crest orc hsegs hdl
  rcases hsp : splitOnOperators (jsTrim cmd) with _ | ⟨s, ss⟩
  · exact absurd hsp hsegs
  · have hst : nextNow (initSt gid envO tsec fs (t1 :: t2 :: crest) t0 orc)
        - (initSt gid envO tsec fs (t1 :: t2 :: crest) t0 orc).startedAt
        > (initSt gid envO tsec fs (t1 :: t2 :: crest) t0 orc).timeoutMs := by
      show t2 - t1 > tsec * 1000
      exact hdl
    have hrp : runPipeline fuel (jsTrim cmd) (initSt gid envO tsec fs (t1 :: t2 :: crest) t0 orc)
        = (Except.error "[command timed out]",
            popClock (initSt gid envO tsec fs (t1 :: t2 :: crest) t0 orc)) := by
      show runSegments fuel (splitOnOperators (jsTrim cmd)) ⟨"", "", 0⟩
        (initSt gid envO tsec fs (t1 :: t2 :: crest) t0 orc) = _
      rw [hsp]
      exact hseg fuel s ss ⟨"", "", 0⟩ _ hst
    show (match runPipeline fuel (jsTrim cmd)
        (initSt gid envO tsec fs (t1 :: t2 :: crest) t0 orc) with
      | (Except.ok r, st') => (r, st')
      | (Except.error msg, st') => (⟨"", msg, 1⟩, st')) = _
    rw [hrp]

/-- Witness for C3: a 30-second budget with readings 100 then 99999999
times out on `echo hi`. -/
theorem spec_c3_timeout_aborts_witness :
    executeShellCore 3 "echo hi" "g" [] 30 [] [100, 99999999] 0 litOracle
      = (⟨"", "[command timed out]", 1⟩,
          popClock (initSt "g" [] 30 [] [100, 99999999] 0 litOracle)) := by
  have h := spec_c3_timeout_aborts.2.2 3 "echo hi" "g" [] 30 [] 100 99999999 0 [] litOracle
    (by decide) (by decide)
  exact h

-- ---------------------------------------------------------------------------
-- C6: grep with zero selected lines
-- ---------------------------------------------------------------------------

theorem safeRead_state (path : String) (st : St) :
    ∃ v, safeRead path st = (Except.ok v, st) := by
  unfold safeRead readGroupFile
  rcases parsePathKey path with e | k
  · exact ⟨none, rfl⟩
  · rcases h : fsGet st.fs k with _ | v
    · exact ⟨none, by simp [h]⟩
    · exact ⟨some v, by simp [h]⟩

theorem textFromOr_state (ops : List String) (stdin : String) (st : St) :
    ∃ t, textFromOr ops stdin st = (Except.ok t, st) := by
  cases ops with
  | nil => exact ⟨stdin, rfl⟩
  | cons f rest =>
    obtain ⟨v, hv⟩ := safeRead_state (resolvePath f st.cwd) st
    have hshape : textFromOr (f :: rest) stdin st =
        (match safeRead (resolvePath f st.cwd) st with
          | (Except.ok a, s') =>
            (Except.ok (match a with | some t => t | none => ""), s')
          | (Except.error e, s') => (Except.error e, s')) := by
      show (do
        let s ← getSt
        let c ← safeRead (resolvePath f s.cwd)
        pure (match c with | some t => t | none => "")) st = _
      rw [M_bind_apply]
      simp only [getSt]
      rw [M_bind_apply]
      rcases safeRead (resolvePath f st.cwd) st with ⟨cr, s'⟩
      cases cr <;> rfl
    rw [hshape, hv]
    cases v with
    | none => exact ⟨"", rfl⟩
    | some t => exact ⟨t, rfl⟩

theorem cmdGrep_state (args : List String) (stdin : String) (st : St) :
    (cmdGrep args stdin st).2 = st := by
  unfold cmdGrep
  obtain ⟨t, ht⟩ := textFromOr_state
    (if (recordGet (parseFlags args ["e", "m"] ["i", "v", "c", "n", "l"]).1 "e").isSome
      then (parseFlags args ["e", "m"] ["i", "v", "c", "n", "l"]).2
      else (parseFlags args ["e", "m"] ["i", "v", "c", "n", "l"]).2.tail) stdin st
  rw [M_bind_apply, ht]
  simp only []
  rw [M_bind_apply]
  simp only [getSt]
  rcases st.oracle.reCompile
    (match recordGet (parseFlags args ["e", "m"] ["i", "v", "c", "n", "l"]).1 "e" with
      | some v => v
      | none => (parseFlags args ["e", "m"] ["i", "v", "c", "n", "l"]).2.headD "")
    ((recordGet (parseFlags args ["e", "m"] ["i", "v", "c", "n", "l"]).1 "i").isSome)
    with _ | re
  · rfl
  · rfl

/-- C6 counterexample: `grep -c x` on empty stdin selects zero lines, yet
returns stdout `0\n` with exit code 0 — the `-c` branch of `grep` runs
before the no-match check — contradicting the claim that every zero-match
grep exits 1 with empty output. -/
theorem spec_c6_counterexample_grep_c :
    executeShell 3 "grep -c x" "g" [] 30 [] [] 0 litOracle = ⟨"0\n", "", 0⟩
    ∧ grepSelect (parseFlags ["-c", "x"] ["e", "m"] ["i", "v", "c", "n", "l"]).1
        (fun line => listHasRun "x".toList line.toList) "" = []
    ∧ (⟨"0\n", "", 0⟩ : ShellResult) ≠ ⟨"", "", 1⟩ :=
  ⟨rfl, rfl, by decide⟩

/-- C6 amended: for every flag record *without* `-c`, a grep whose
selection is empty returns exit code 1 with empty stdout and stderr; and a
grep invocation never changes the interpreter state, so repeating it from
the resulting state reproduces the identical result. -/
theorem spec_c6_amended_no_match :
    (∀ (flags : List (String × String)) (re : String → Bool) (text : String),
      recordGet flags "c" = none →
      grepSelect flags re text = [] →
      grepCore flags re text = ⟨"", "", 1⟩)
    ∧ (∀ (args : List String) (stdin : String) (st st₂ : St) (r : Except String ShellResult),
      cmdGrep args stdin st = (r, st₂) →
      st₂ = st ∧ cmdGrep args stdin st₂ = (r, st₂)) := by
  constructor
  · intro flags re text hc hsel
    unfold grepCore
    rw [hsel, hc]
    simp only [Option.isSome_none, Bool.false_eq_true, if_false]
    rcases recordGet flags "n" with _ | nv <;> simp [fail1, fail]
  · intro args stdin st st₂ r hrun
    have hst : st₂ = st := by
      have := cmdGrep_state args stdin st
      rw [hrun] at this
      exact this
    subst hst
    exact ⟨rfl, hrun⟩

/-- Witness for C6 amended: an inverted match (`-v` with an
always-matching pattern) selects nothing and exits 1; the state
preservation instantiated on a concrete run. -/
theorem spec_c6_amended_no_match_witness :
    grepCore [("v", "")] (fun _ => true) "a" = ⟨"", "", 1⟩
    ∧ cmdGrep ["x"] "" (initSt "g" [] 30 [] [] 0 litOracle)
        = (Except.ok ⟨"", "", 1⟩, initSt "g" [] 30 [] [] 0 litOracle) := by
  constructor
  · exact spec_c6_amended_no_match.1 [("v", "")] (fun _ => true) "a" rfl rfl
  · have h := (spec_c6_amended_no_match.2 ["x"] "" (initSt "g" [] 30 [] [] 0 litOracle)
      (initSt "g" [] 30 [] [] 0 litOracle) (Except.ok ⟨"", "", 1⟩) rfl).2
    exact h

-- ---------------------------------------------------------------------------
-- C1: single-command composition
-- ---------------------------------------------------------------------------

theorem noAmpAmp_tail {c : Char} {cs : List Char} (h : noAmpAmp (c :: cs) = true) :
    noAmpAmp cs = true := by
  cases cs with
  | nil => rfl
  | cons b t =>
    simp only [noAmpAmp, Bool.and_eq_true] at h
    exact h.2

theorem noAmpAmp_head {c b : Char} {t : List Char} (h : noAmpAmp (c :: b :: t) = true) :
    (c == '&' && b == '&') = false := by
  simp only [noAmpAmp, Bool.and_eq_true] at h
  rcases Bool.eq_false_or_eq_true (c == '&' && b == '&') with h2 | h2
  · rw [h2] at h
    simp at h
  · exact h2

/-- Splitting an operator-free command line yields at most one segment:
the whole line with an empty trailing operator (or nothing at all when
the line is blank). -/
theorem splitAuxF_noops :
    ∀ (cs : List Char) (n : Nat) (inS inD : Bool) (cur : List Char),
      cs.length ≤ n →
      (cs.all fun c => c ≠ ';' && c ≠ '|') = true →
      noAmpAmp cs = true →
      splitAuxF n cs inS inD cur =
        (if jsTrim (String.mk (cur ++ cs)) == "" then []
          else [⟨String.mk (cur ++ cs), ""⟩]) := by
  intro cs
  induction cs with
  | nil =>
    intro n inS inD cur _ _ _
    cases n <;> simp [splitAuxF]
  | cons c cs' ih =>
    intro n inS inD cur hlen hall hamp
    cases n with
    | zero => simp at hlen
    | succ m =>
      have hlen' : cs'.length ≤ m := by
        simp only [List.length_cons] at hlen
        omega
      have hcc : (c ≠ ';' && c ≠ '|') = true ∧ (cs'.all fun c => c ≠ ';' && c ≠ '|') = true := by
        simpa [List.all_cons] using hall
      have hall' := hcc.2
      have hamp' : noAmpAmp cs' = true := noAmpAmp_tail hamp
      have hcboth : decide (c ≠ ';') = true ∧ decide (c ≠ '|') = true := by
        have h := hcc.1
        rw [Bool.and_eq_true] at h
        exact h
      have hcsemi : (c == ';') = false := by
        have h1 : c ≠ ';' := of_decide_eq_true hcboth.1
        simp [h1]
      have hcpipe : (c == '|') = false := by
        have h2 : c ≠ '|' := of_decide_eq_true hcboth.2
        simp [h2]
      have hampc : (c == '&' && cs'.head? == some '&') = false := by
        cases cs' with
        | nil => simp
        | cons b t =>
          have hthis := noAmpAmp_head hamp
          rcases Bool.eq_false_or_eq_true (c == '&') with h | h
          · rcases Bool.eq_false_or_eq_true (b == '&') with h2 | h2
            · rw [h, h2] at hthis
              simp at hthis
            · simp [h, h2]
          · simp [h]
      have happ : ∀ (x : Char), (cur ++ [x]) ++ cs' = cur ++ (x :: cs') := by
        intro x
        simp [List.append_assoc]
      simp only [splitAuxF]
      by_cases hq1 : (c == '\'' && !inD) = true
      · rw [if_pos hq1, ih m (!inS) inD (cur ++ [c]) hlen' hall' hamp', happ c]
      · rw [if_neg hq1]
        by_cases hq2 : (c == '"' && !inS) = true
        · rw [if_pos hq2, ih m inS (!inD) (cur ++ [c]) hlen' hall' hamp', happ c]
        · rw [if_neg hq2]
          by_cases hq3 : (inS || inD) = true
          · rw [if_pos hq3, ih m inS inD (cur ++ [c]) hlen' hall' hamp', happ c]
          · rw [if_neg hq3]
            rw [if_neg (by simp [hampc]), if_neg (by simp [hcpipe]),
              if_neg (by simp [hcsemi]),
              ih m inS inD (cur ++ [c]) hlen' hall' hamp', happ c]

/-- C1 (amended): for a command line containing no control operators
(no `;`, no `|`, no `&&`) and not blank, the whole pipeline reduces to the
single-command path: one timeout poll followed by `runSingle` on the
trimmed line — and `runSingle` is, definitionally, the composition
redirect-extract → expand → tokenize → flag-parse/dispatch → redirect
write, with redirect extraction performed on the *raw* string before
variable expansion. -/
theorem spec_c1_amended_single_composition :
    ∀ (fuel : Nat) (line : String) (st : St),
      jsTrim line ≠ "" →
      noCtrlOps line.toList = true →
      runPipeline fuel line st =
        ((do checkTimeout; runSingle fuel (jsTrim line) "") : M ShellResult) st := by
  intro fuel line st htrim hops
  have hops' : (line.toList.all fun c => c ≠ ';' && c ≠ '|') = true
      ∧ noAmpAmp line.toList = true := by
    have h := hops
    rw [noCtrlOps, Bool.and_eq_true] at h
    exact h
  have hall := hops'.1
  have hamp := hops'.2
  have hmk : String.mk line.toList = line := rfl
  have hsplit : splitOnOperators line = [⟨line, ""⟩] := by
    show splitAuxF line.toList.length line.toList false false [] = _
    rw [splitAuxF_noops line.toList line.toList.length false false [] (le_refl _) hall hamp]
    simp only [List.nil_append, hmk]
    rw [if_neg (by simp [htrim])]
  have hpipe : hasPipeChar line = false := by
    unfold hasPipeChar
    rcases Bool.eq_false_or_eq_true (line.toList.contains '|') with h | h
    · exfalso
      have hmem : '|' ∈ line.toList := by
        simpa using h
      have := List.all_eq_true.1 hall '|' hmem
      simp at this
    · exact h
  have hexecseg : execSeg fuel ⟨line, ""⟩ = runSingleFix fuel (jsTrim line) "" := by
    unfold execSeg
    simp [hpipe]
  show runSegments fuel (splitOnOperators line) ⟨"", "", 0⟩ st = _
  rw [hsplit, runSegments_cons]
  rw [M_bind_apply]
  rcases hct : checkTimeout st with ⟨cr, s1⟩
  cases cr with
  | error e => rfl
  | ok u =>
    simp only []
    rw [if_neg (by simp [htrim]), hexecseg]
    rcases hrs : runSingleFix fuel (jsTrim line) "" s1 with ⟨rr, s2⟩
    have hrs' : runSingle fuel (jsTrim line) "" s1 = (rr, s2) := hrs
    rw [hrs']
    cases rr with
    | error e => rfl
    | ok r =>
      simp only []
      rw [if_neg (by simp), if_neg (by simp)]
      rfl

/-- Witness for C1 (amended) at `echo hi`. -/
theorem spec_c1_amended_single_composition_witness :
    runPipeline 3 "echo hi" (initSt "g" [] 30 [] [] 0 litOracle)
      = ((do checkTimeout; runSingle 3 (jsTrim "echo hi") "") : M ShellResult)
          (initSt "g" [] 30 [] [] 0 litOracle) :=
  spec_c1_amended_single_composition 3 "echo hi" (initSt "g" [] 30 [] [] 0 litOracle)
    (by decide) (by decide)

/-- C1 counterexample: the claim's order (expansion before redirect
extraction, `specOrderSingle`) disagrees with the implementation on
`echo $V` with `V = ">f"`: the code expands *after* redirect extraction,
finds no redirect in the raw string, and prints `>f`, while the claimed
order would extract the expanded `> f` redirect and print nothing. -/
theorem spec_c1_counterexample_order :
    executeShell 3 "echo $V" "g" [("V", ">f")] 30 [] [] 0 litOracle = ⟨">f\n", "", 0⟩
    ∧ (specOrderSingle xargsStub "echo $V" ""
        (initSt "g" [("V", ">f")] 30 [] [] 0 litOracle)).1 = Except.ok ⟨"", "", 0⟩
    ∧ (⟨">f\n", "", 0⟩ : ShellResult) ≠ ⟨"", "", 0⟩ :=
  ⟨rfl, rfl, by decide⟩

/-! ### C8: expansion before tokenization and quote handling -/

/-- A `$`-free suffix passes through the second expansion pass verbatim. -/
theorem expandWordsF_clean (env : List (String × String)) :
    ∀ (n : Nat) (l : List Char), l.length ≤ n → (∀ c ∈ l, c ≠ '$') →
      expandWordsF env n l = l := by
  intro n
  induction n with
  | zero =>
    intro l hlen _
    cases l with
    | nil => rfl
    | cons c cs => simp at hlen
  | succ m ih =>
    intro l hlen hcl
    cases l with
    | nil => rfl
    | cons c cs =>
      have hc : c ≠ '$' := hcl c (List.mem_cons_self c cs)
      conv_lhs => rw [expandWordsF]
      rw [if_neg (by simp [hc])]
      rw [ih cs (Nat.le_of_succ_le_succ (by simpa using hlen))
        (fun d hd => hcl d (List.mem_cons_of_mem c hd))]

/-- Inside single quotes, `tokenize` copies every character other than
`'` into the current buffer unchanged (no escape, no space, no double
quote handling applies while `inSingle` is set). -/
theorem tokenizeAux_quoted :
    ∀ (vcs rest cur : List Char), (∀ c ∈ vcs, c ≠ '\'') →
      tokenizeAux (vcs ++ rest) true false false cur
        = tokenizeAux rest true false false (cur ++ vcs) := by
  intro vcs
  induction vcs with
  | nil => intro rest cur _; rw [List.nil_append, List.append_nil]
  | cons c cs ih =>
    intro rest cur hall
    have hc : c ≠ '\'' := hall c (List.mem_cons_self c cs)
    conv_lhs => rw [List.cons_append, tokenizeAux]
    rw [if_neg (by simp), if_neg (by simp), if_neg (by simp [hc]),
      if_neg (by simp), if_neg (by simp)]
    rw [ih rest (cur ++ [c]) (fun d hd => hall d (List.mem_cons_of_mem c hd))]
    simp [List.append_assoc]

/-- C8: `expandVars` runs on the whole raw command string before
tokenization and before quote stripping, so `$VAR` / `$\x7bVAR\x7d` are
substituted even inside single or double quotes: `expandVars` on
`echo '$VAR'` splices the value between the single quotes, on
`echo "$\x7bVAR\x7d"` between the double quotes (for a `$`-free value),
tokenization then strips the quotes around the spliced value, and
end-to-end `echo '$VAR'` with `VAR=hello world` prints `hello world`
followed by a newline. -/
theorem spec_c8_expansion_in_quotes :
    (∀ v : String,
      expandVars "echo '$VAR'" [("VAR", v)] = "echo '" ++ v ++ "'")
    ∧ (∀ v : String, '$' ∉ v.toList →
      expandVars "echo \"${VAR}\"" [("VAR", v)] = "echo \"" ++ v ++ "\"")
    ∧ (∀ v : String, '\'' ∉ v.toList → v ≠ "" →
      tokenize ("echo '" ++ v ++ "'") = ["echo", v])
    ∧ executeShell 3 "echo '$VAR'" "g" [("VAR", "hello world")] 30 [] [] 0 litOracle
        = ⟨"hello world\n", "", 0⟩ := by
  refine ⟨fun v => rfl, ?_, ?_, rfl⟩
  · intro v hv
    show String.mk (expandWords [("VAR", v)]
      (expandBraces [("VAR", v)] ("echo \"${VAR}\"").toList)) = _
    have h1 : expandBraces [("VAR", v)] ("echo \"${VAR}\"").toList
        = "echo \"".toList ++ (v.toList ++ ['"']) := rfl
    rw [h1]
    have hall : ∀ c ∈ ("echo \"".toList ++ (v.toList ++ ['"'])), c ≠ '$' := by
      intro c hcmem
      rcases List.mem_append.1 hcmem with h | h
      · have h' : c ∈ ['e', 'c', 'h', 'o', ' ', '"'] := h
        simp only [List.mem_cons, List.not_mem_nil, or_false] at h'
        rcases h' with rfl | rfl | rfl | rfl | rfl | rfl <;> decide
      · rcases List.mem_append.1 h with h2 | h2
        · exact fun hceq => hv (hceq ▸ h2)
        · simp only [List.mem_cons, List.not_mem_nil, or_false] at h2
          subst h2
          decide
    rw [show expandWords [("VAR", v)] ("echo \"".toList ++ (v.toList ++ ['"']))
        = expandWordsF [("VAR", v)]
            ("echo \"".toList ++ (v.toList ++ ['"'])).length
            ("echo \"".toList ++ (v.toList ++ ['"'])) from rfl,
      expandWordsF_clean [("VAR", v)] _ _ (le_refl _) hall]
    rfl
  · intro v hq hne
    have hd : v.toList ≠ [] := by
      intro h
      apply hne
      cases v with
      | mk d =>
        have h' : d = [] := h
        subst h'
        rfl
    have hstep : tokenize ("echo '" ++ v ++ "'")
        = "echo" :: tokenizeAux (v.toList ++ ['\'']) true false false [] := rfl
    rw [hstep,
      tokenizeAux_quoted v.toList ['\''] [] (fun c hc hceq => hq (hceq ▸ hc))]
    have h2 : tokenizeAux ['\''] true false false ([] ++ v.toList)
        = if (v.toList).isEmpty = true then [] else [String.mk v.toList] := rfl
    rw [h2, if_neg (fun hcond => hd (by simpa using hcond))]
    rfl

/-- Witness for C8 at `VAR=abc` and `v = hello world`. -/
theorem spec_c8_expansion_in_quotes_witness :
    expandVars "echo \"${VAR}\"" [("VAR", "abc")] = "echo \"abc\""
    ∧ tokenize ("echo '" ++ "hello world" ++ "'") = ["echo", "hello world"] :=
  ⟨spec_c8_expansion_in_quotes.2.1 "abc" (by decide),
   spec_c8_expansion_in_quotes.2.2.1 "hello world" (by decide) (by decide)⟩

/-- Witness for C9 at `resolvePath "../x" "."`: the single resulting
segment `x` is a good segment and the head of the result is not `/`. -/
theorem spec_c9_resolve_path_confined_witness :
    ("x" ≠ "" ∧ "x" ≠ "." ∧ "x" ≠ ".." ∧ ('/' ∉ "x".toList)) ∧ 'x' ≠ '/' :=
  ⟨(spec_c9_resolve_path_confined.1 "../x" ".").1 "x" (by decide),
   (spec_c9_resolve_path_confined.1 "../x" ".").2.2 'x' (by decide)⟩

/-- Witness for C10 at `mv f f` on a workspace holding only `f`. -/
theorem spec_c10_mv_self_delete_witness :
    ∃ st', cmdMv ["f", "f"] (initSt "g" [] 30 [("f", "data")] [] 0 litOracle)
        = (Except.ok (ok ""), st')
      ∧ fsGet st'.fs "f" = none :=
  spec_c10_mv_self_delete.1 "f" "f" (initSt "g" [] 30 [("f", "data")] [] 0 litOracle)
    "f" "data" rfl rfl rfl

end BrowserClaw
